import Mathlib

/-!
# Buddy-MD: the Ludo engine of `src/Commands/Game/Ludo.js`

A shallow embedding of the classes `LudoGame`, `LudoAI` and `PlayerStats` and of
the command handlers `LudoCommand.handleRoll`, `LudoCommand.handleMove` and
`LudoCommand.sendPlayerStats`, followed by the properties established about them.

Conventions of the embedding.

* A pawn's `position` field holds a JavaScript value.  The values the program
  stores there are numbers (`-1` for a pawn in its base), the string `'home'`,
  and `NaN` (the remainder of a string); `Pos` has one constructor for each.
* `this.players`, `this.homeStretch` and `this.startPositions` are assigned once
  in the constructor and never written again; they are constants here.
* `this.currentPlayer` starts at `0` and is only ever replaced by
  `(this.currentPlayer + 1) % 4`; it is a `Fin 4`.
* Reading `.safe` of `this.board[position]` raises a `TypeError` when the board
  has no entry at that index.  `Outcome` records whether a method ran to its end
  or was cut short by that error, and in both cases the state it left behind.
* `Math.random()` is a sequence of values in `[0, 1)` read through a cursor.  A
  binary64 number is the rational it denotes; the product `r * 6` is rounded to
  binary64 (to nearest, ties to even) by `roundBinary64`, and a rational `x` is a
  binary64 value exactly when `roundBinary64 x = x`.
* Outgoing chat messages are not modelled, and the statistics map is not part
  of the state of `handleRoll` and `handleMove`; `sendPlayerStats` takes and
  returns that map.
* `Array.prototype.sort` is stable: entries the comparator calls equal keep
  their order.
* The counters of `PlayerStats` are integers; a quotient of two of them is an
  exact rational, `NaN` or an infinity.
-/

namespace Ludo

/-- The four entries of `this.players`. -/
inductive Player
  | red
  | green
  | yellow
  | blue
  deriving DecidableEq, Repr

/-- The values a pawn's `position` field takes: a number, the string `'home'`, or `NaN`. -/
inductive Pos
  | num (n : Int)
  | home
  | nan
  deriving DecidableEq, Repr

/-- One entry of `this.board`. -/
structure Cell where
  position : Int
  type : String
  safe : Bool
  deriving DecidableEq, Repr

/-- The mutable fields of a `LudoGame` object. -/
structure Game where
  board : List Cell
  currentPlayer : Fin 4
  pawns : Player → Fin 4 → Pos

/-- How a method call ended: `done` when it returned, `typeError` when reading
`.safe` of a missing board entry raised; each carries the state left behind. -/
inductive Outcome
  | done (g : Game)
  | typeError (g : Game)

/-- The game state a call left behind. -/
def Outcome.game : Outcome → Game
  | .done g => g
  | .typeError g => g

/-- Whether the call returned normally. -/
def Outcome.returned : Outcome → Bool
  | .done _ => true
  | .typeError _ => false

/-- The constant `this.players = ['red', 'green', 'yellow', 'blue']`. -/
def players : List Player := [.red, .green, .yellow, .blue]

/-- The element `game.players[k]` for a valid seat index `k`. -/
def playerAt (k : Fin 4) : Player :=
  match k with
  | 0 => .red
  | 1 => .green
  | 2 => .yellow
  | 3 => .blue

/-- The place of a seat in `this.players`. -/
def seatIndex (p : Player) : Nat := players.indexOf p

/-- The indices `0, 1, 2, 3` of a seat's pawn array, in loop order. -/
def pawnIndices : List (Fin 4) := [0, 1, 2, 3]

/-- The constant `this.homeStretch`. -/
def homeStretch : Player → Fin 5 → Int
  | .red => ![52, 53, 54, 55, 56]
  | .green => ![13, 14, 15, 16, 17]
  | .yellow => ![26, 27, 28, 29, 30]
  | .blue => ![39, 40, 41, 42, 43]

/-- The constant `this.startPositions`. -/
def startPositions : Player → Int
  | .red => 0
  | .green => 13
  | .yellow => 26
  | .blue => 39

/-- The index list of `createDefaultBoard` whose cells are flagged safe. -/
def safeCells : List Int := [0, 8, 13, 21, 26, 34, 39, 47]

/-- The method `LudoGame.createDefaultBoard`. -/
def createDefaultBoard : List Cell :=
  (List.range 52).map fun index =>
    { position := (index : Int), type := "normal", safe := safeCells.contains (index : Int) }

/-- The state the `LudoGame` constructor builds (`customBoard || createDefaultBoard()`). -/
def newGame (customBoard : Option (List Cell)) : Game :=
  { board := customBoard.getD createDefaultBoard
    currentPlayer := 0
    pawns := fun _ _ => .num (-1) }

/-- The integer nearest to `x`, the even one of the two when `x` lies halfway. -/
def roundTiesEven (x : ℚ) : Int :=
  if Int.fract x < 1 / 2 then ⌊x⌋
  else if 1 / 2 < Int.fract x then ⌊x⌋ + 1
  else if ⌊x⌋ % 2 = 0 then ⌊x⌋
  else ⌊x⌋ + 1

/-- The exponent of the spacing of the binary64 values around `x`: 52 below the
exponent of the leading bit of `x`, and `-1074` in the subnormal range. -/
def ulpExponent (x : ℚ) : Int := max (Int.log 2 |x| - 52) (-1074)

/-- The binary64 value of a real result `x` (round to nearest, ties to even), for
results below `2 ^ 1024` in size, which is all that the products formed here reach. -/
def roundBinary64 (x : ℚ) : ℚ :=
  (roundTiesEven (x / 2 ^ ulpExponent x) : ℚ) * 2 ^ ulpExponent x

/-- JavaScript `a % m` on integers: the remainder takes the sign of the dividend. -/
def jsMod (a m : Int) : Int := Int.tmod a m

/-- The expression `(position + steps) % 52`.  For a number it is the truncated
remainder; for `'home'` the sum is a string and its remainder is `NaN`; `NaN`
stays `NaN`. -/
def advance (position : Pos) (steps : Int) : Pos :=
  match position with
  | .num n => .num (jsMod (n + steps) 52)
  | .home => .nan
  | .nan => .nan

/-- JavaScript `a === b` on position values: `NaN` is equal to nothing. -/
def strictEq (a b : Pos) : Bool :=
  match a, b with
  | .num m, .num n => decide (m = n)
  | .home, .home => true
  | _, _ => false

/-- JavaScript `position >= n` for a number `n`: false unless `position` is a number. -/
def geNum (position : Pos) (n : Int) : Bool :=
  match position with
  | .num k => decide (n ≤ k)
  | _ => false

/-- JavaScript `position <= n` for a number `n`: false unless `position` is a number. -/
def leNum (position : Pos) (n : Int) : Bool :=
  match position with
  | .num k => decide (k ≤ n)
  | _ => false

/-- The array read `this.board[position]`: `none` stands for `undefined`. -/
def boardAt (board : List Cell) (position : Pos) : Option Cell :=
  match position with
  | .num n => if 0 ≤ n then board[n.toNat]? else none
  | _ => none

/-- The assignment `this.pawns[player][pawnIndex].position = value`. -/
def Game.setPosition (g : Game) (player : Player) (pawnIndex : Fin 4) (value : Pos) : Game :=
  { g with pawns := fun q j => if q = player ∧ j = pawnIndex then value else g.pawns q j }

namespace LudoGame

/-- The method `LudoGame.isInHomeStretch`. -/
def isInHomeStretch (player : Player) (position : Pos) : Bool :=
  geNum position (homeStretch player 0) && leNum position (homeStretch player 4)

/-- The inner `for (let i = 0; i < 4; i++)` loop of `checkCapture`, over the
remaining indices. -/
def captureLoop (otherPlayer : Player) (position : Pos) : List (Fin 4) → Game → Outcome
  | [], g => .done g
  | i :: rest, g =>
    if strictEq (g.pawns otherPlayer i) position then
      match boardAt g.board position with
      | none => .typeError g
      | some cell =>
        if !cell.safe then
          captureLoop otherPlayer position rest (g.setPosition otherPlayer i (.num (-1)))
        else
          captureLoop otherPlayer position rest g
    else
      captureLoop otherPlayer position rest g

/-- The outer `for (const otherPlayer of this.players)` loop of `checkCapture`,
over the remaining seats. -/
def checkCaptureFrom (player : Player) (position : Pos) : List Player → Game → Outcome
  | [], g => .done g
  | otherPlayer :: rest, g =>
    if otherPlayer ≠ player then
      match captureLoop otherPlayer position pawnIndices g with
      | .done g1 => checkCaptureFrom player position rest g1
      | .typeError g1 => .typeError g1
    else
      checkCaptureFrom player position rest g

/-- The method `LudoGame.checkCapture`. -/
def checkCapture (g : Game) (player : Player) (position : Pos) : Outcome :=
  checkCaptureFrom player position players g

/-- The method `LudoGame.movePawn`. -/
def movePawn (g : Game) (player : Player) (pawnIndex : Fin 4) (steps : Int) : Outcome :=
  let position := g.pawns player pawnIndex
  if position = .num (-1) ∧ steps = 6 then
    .done (g.setPosition player pawnIndex (.num (startPositions player)))
  else if position ≠ .num (-1) then
    let newPosition := advance position steps
    if isInHomeStretch player newPosition then
      if strictEq newPosition (.num (homeStretch player 4)) then
        .done (g.setPosition player pawnIndex .home)
      else
        .done (g.setPosition player pawnIndex newPosition)
    else
      checkCapture (g.setPosition player pawnIndex newPosition) player newPosition
  else
    .done g

/-- The method `LudoGame.isGameOver`: `none` stands for the result `false`. -/
def isGameOver (g : Game) : Option Player :=
  players.find? fun player => pawnIndices.all fun i => decide (g.pawns player i = .home)

/-- The method `LudoGame.nextTurn`. -/
def nextTurn (g : Game) : Game :=
  { g with currentPlayer := ⟨(g.currentPlayer.val + 1) % 4, Nat.mod_lt _ (by decide)⟩ }

/-- The method `LudoGame.rollDice`, as a function of the value `r` that
`Math.random()` returned: the product is rounded to binary64, `Math.floor` and
the addition of 1 are exact. -/
def rollDice (r : ℚ) : Int := ⌊roundBinary64 (r * 6)⌋ + 1

end LudoGame

namespace LudoAI

/-- An element of the array `getPossibleMoves` returns: `{ index, position }`. -/
structure Move where
  index : Fin 4
  position : Pos
  deriving DecidableEq, Repr

/-- The method `LudoAI.getPossibleMoves`, for the evaluator of seat `player` on game `g`. -/
def getPossibleMoves (g : Game) (player : Player) (roll : Int) : List Move :=
  (pawnIndices.map fun index => ({ index := index, position := g.pawns player index } : Move)).filter
    fun pawn =>
      (decide (pawn.position = .num (-1)) && decide (roll = 6)) ||
      (decide (pawn.position ≠ .num (-1)) && decide (pawn.position ≠ .home))

end LudoAI

namespace LudoCommand

/-- What a handler works on for one group: the entry `LudoCommand.games.get(groupId)`
(`none` when there is no game), the values `Math.random()` yields, and how many of
them have been consumed. -/
structure Session where
  game : Option Game
  random : Nat → ℚ
  drawn : Nat

/-- What `handleRoll` announces: the value it rolled and the moves it lists. -/
structure RollReport where
  roll : Int
  possibleMoves : List (Fin 4)
  deriving DecidableEq, Repr

/-- What `handleMove` did: the number of steps it passed to `movePawn`, whether
`movePawn` raised, and the winner `isGameOver` returned (when it was reached). -/
structure MoveReport where
  steps : Int
  raised : Bool
  winner : Option Player
  deriving DecidableEq, Repr

/-- The list `possibleMoves` built in `handleRoll`: a `map` to an index or `null`,
then a `filter` that drops the `null` entries. -/
def possibleMoves (g : Game) (currentPlayer : Player) (roll : Int) : List (Fin 4) :=
  (pawnIndices.map fun index =>
    let position := g.pawns currentPlayer index
    if position = .num (-1) ∧ roll = 6 then some index
    else if position ≠ .num (-1) ∧ position ≠ .home then some index
    else none).filterMap id

/-- The handler `LudoCommand.handleRoll`.  The report is `none` when there is no game. -/
def handleRoll (s : Session) : Session × Option RollReport :=
  match s.game with
  | none => (s, none)
  | some g =>
    let roll := LudoGame.rollDice (s.random s.drawn)
    let s1 : Session := { s with drawn := s.drawn + 1 }
    let currentPlayer := playerAt g.currentPlayer
    let moves := possibleMoves g currentPlayer roll
    if moves.length = 0 then
      ({ s1 with game := some (LudoGame.nextTurn g) }, some { roll := roll, possibleMoves := moves })
    else
      (s1, some { roll := roll, possibleMoves := moves })

/-- The test `isNaN(pawnIndex) || pawnIndex < 0 || pawnIndex > 3` of `handleMove`
on the result of `parseInt` (`none` for `NaN`): the pawn index when it passes. -/
def validPawnIndex (parsed : Option Int) : Option (Fin 4) :=
  match parsed with
  | none => none
  | some n => if h : 0 ≤ n ∧ n ≤ 3 then some ⟨n.toNat, by omega⟩ else none

/-- The handler `LudoCommand.handleMove`, on the value `parseInt(args[1])` gave.  The report
is `none` when the handler returns before rolling (no game, or a bad pawn index).
When the game is over the entry of the group is deleted. -/
def handleMove (s : Session) (parsed : Option Int) : Session × Option MoveReport :=
  match s.game with
  | none => (s, none)
  | some g =>
    let currentPlayer := playerAt g.currentPlayer
    match validPawnIndex parsed with
    | none => (s, none)
    | some pawnIndex =>
      let roll := LudoGame.rollDice (s.random s.drawn)
      let s1 : Session := { s with drawn := s.drawn + 1 }
      match LudoGame.movePawn g currentPlayer pawnIndex roll with
      | .typeError g1 =>
        ({ s1 with game := some g1 }, some { steps := roll, raised := true, winner := none })
      | .done g1 =>
        match LudoGame.isGameOver g1 with
        | some winner =>
          ({ s1 with game := none }, some { steps := roll, raised := false, winner := some winner })
        | none =>
          ({ s1 with game := some (LudoGame.nextTurn g1) },
            some { steps := roll, raised := false, winner := none })

end LudoCommand

namespace LudoAI

/-- An element of the array `scoredMoves` of `makeMove`: `{ move, score }`. -/
structure ScoredMove where
  move : Move
  score : Int
  deriving DecidableEq, Repr

/-- The method `LudoAI.canCapture`, for the evaluator of seat `player` on game `g`:
the loops return `true` at the first pawn of another seat found on `position`. -/
def canCapture (g : Game) (player : Player) (position : Pos) : Bool :=
  players.any fun other =>
    decide (other ≠ player) && pawnIndices.any fun i => strictEq (g.pawns other i) position

/-- The method `LudoAI.isInDangerZone`.  The test inside `some` is written
`a && b && c1 || c2 || c3` in the source, which JavaScript reads as
`((a && b) && c1) || c2 || c3`. -/
def isInDangerZone (g : Game) (player : Player) (position : Pos) : Bool :=
  players.any fun other =>
    decide (other ≠ player) && pawnIndices.any fun i =>
      (((decide (g.pawns other i ≠ .num (-1)) && decide (g.pawns other i ≠ .home)) &&
          strictEq (advance (g.pawns other i) 1) position) ||
        strictEq (advance (g.pawns other i) 2) position) ||
        strictEq (advance (g.pawns other i) 3) position

/-- The method `LudoAI.evaluateMove`. -/
def evaluateMove (g : Game) (player : Player) (move : Move) (roll : Int) : Int :=
  let score0 : Int := 0
  let newPosition := advance move.position roll
  let score1 := if move.position = .num (-1) ∧ roll = 6 then score0 + 100 else score0
  let score2 := if LudoGame.isInHomeStretch player newPosition then score1 + 75 else score1
  let score3 := if canCapture g player newPosition then score2 + 50 else score2
  let score4 := if isInDangerZone g player newPosition then score3 - 25 else score3
  score4

/-- The call `scoredMoves.sort((a, b) => b.score - a.score)`: a stable sort into
descending score order (entries of equal score keep their order). -/
def sortByScore (scoredMoves : List ScoredMove) : List ScoredMove :=
  scoredMoves.insertionSort fun a b => b.score ≤ a.score

/-- The method `LudoAI.makeMove`, as a function of the value `r` that
`Math.random()` returned to `rollDice`; `none` stands for `null`. -/
def makeMove (g : Game) (player : Player) (r : ℚ) : Option Move :=
  let roll := LudoGame.rollDice r
  let possibleMoves := getPossibleMoves g player roll
  if possibleMoves.length = 0 then none
  else
    let scoredMoves := possibleMoves.map fun move =>
      ({ move := move, score := evaluateMove g player move roll } : ScoredMove)
    (sortByScore scoredMoves).head?.map ScoredMove.move

end LudoAI

/-- The value of a JavaScript arithmetic expression on numbers: a finite value
(kept as an exact rational), `NaN`, `Infinity` or `-Infinity`. -/
inductive JsNumber
  | finite (q : ℚ)
  | nan
  | infinity
  | negInfinity
  deriving DecidableEq

/-- JavaScript `a / b` on two integers: a zero divisor gives `NaN` for `0 / 0`
and an infinity otherwise. -/
def jsDiv (a b : Int) : JsNumber :=
  if b ≠ 0 then .finite ((a : ℚ) / (b : ℚ))
  else if a = 0 then .nan
  else if 0 < a then .infinity
  else .negInfinity

/-- JavaScript `x * 100`. -/
def jsTimes100 (x : JsNumber) : JsNumber :=
  match x with
  | .finite q => .finite (q * 100)
  | .nan => .nan
  | .infinity => .infinity
  | .negInfinity => .negInfinity

/-- What `x.toFixed(2)` puts into a message: the text `NaN`, `Infinity` or
`-Infinity`, or the two-decimal rendering of a finite value (kept as the value). -/
inductive Shown
  | text (s : String)
  | decimal2 (q : ℚ)
  deriving DecidableEq

/-- The call `x.toFixed(2)`. -/
def toFixed2 (x : JsNumber) : Shown :=
  match x with
  | .finite q => .decimal2 q
  | .nan => .text "NaN"
  | .infinity => .text "Infinity"
  | .negInfinity => .text "-Infinity"

/-- The fields of a `PlayerStats` object.  The counters are integers: the
entries `updatePlayerStats` adds are integers as long as no pawn position is `NaN`. -/
structure PlayerStats where
  playerId : String
  gamesPlayed : Int
  gamesWon : Int
  totalMoves : Int
  pawnsLost : Int
  pawnsFinished : Int
  deriving DecidableEq

/-- The argument of `updateStats`: the winner and, for each identity, the three
entries of the game. -/
structure GameResult where
  winner : String
  moves : String → Int
  pawnsLost : String → Int
  pawnsFinished : String → Int

/-- The values shown by the lines of `getStatsMessage`, in order. -/
structure StatsMessage where
  playerId : String
  gamesPlayed : Int
  gamesWon : Int
  winRate : Shown
  averageMoves : Shown
  pawnsLost : Int
  pawnsFinished : Int
  deriving DecidableEq

namespace PlayerStats

/-- The constructor of `PlayerStats`. -/
def new (playerId : String) : PlayerStats :=
  { playerId := playerId, gamesPlayed := 0, gamesWon := 0, totalMoves := 0, pawnsLost := 0,
    pawnsFinished := 0 }

/-- The method `PlayerStats.updateStats`. -/
def updateStats (st : PlayerStats) (gameResult : GameResult) : PlayerStats :=
  { playerId := st.playerId
    gamesPlayed := st.gamesPlayed + 1
    gamesWon := if gameResult.winner = st.playerId then st.gamesWon + 1 else st.gamesWon
    totalMoves := st.totalMoves + gameResult.moves st.playerId
    pawnsLost := st.pawnsLost + gameResult.pawnsLost st.playerId
    pawnsFinished := st.pawnsFinished + gameResult.pawnsFinished st.playerId }

/-- The method `PlayerStats.getStatsMessage`. -/
def getStatsMessage (st : PlayerStats) : StatsMessage :=
  { playerId := st.playerId
    gamesPlayed := st.gamesPlayed
    gamesWon := st.gamesWon
    winRate := toFixed2 (jsTimes100 (jsDiv st.gamesWon st.gamesPlayed))
    averageMoves := toFixed2 (jsDiv st.totalMoves st.gamesPlayed)
    pawnsLost := st.pawnsLost
    pawnsFinished := st.pawnsFinished }

end PlayerStats

namespace LudoCommand

/-- The handler `LudoCommand.sendPlayerStats`, on the map `LudoCommand.playerStats`
and the argument `args[1]` (`none` for `undefined`): the map afterwards and the
statistics message sent (`none` when the handler asks for a player id instead). -/
def sendPlayerStats (playerStats : String → Option PlayerStats) (playerId : Option String) :
    (String → Option PlayerStats) × Option StatsMessage :=
  match playerId with
  | none => (playerStats, none)
  | some id =>
    if id = "" then (playerStats, none)
    else
      match playerStats id with
      | some stats => (playerStats, some stats.getStatsMessage)
      | none =>
        (fun key => if key = id then some (PlayerStats.new id) else playerStats key,
          some (PlayerStats.new id).getStatsMessage)

end LudoCommand

/-- The states a game object goes through: the state the constructor builds, and
from any of them the state left by a `movePawn` of 1..6 steps or by `nextTurn`. -/
inductive Reachable : Game → Prop
  | start (customBoard : Option (List Cell)) : Reachable (newGame customBoard)
  | move (g : Game) (player : Player) (pawnIndex : Fin 4) (steps : Int) :
      Reachable g → 1 ≤ steps → steps ≤ 6 →
      Reachable (LudoGame.movePawn g player pawnIndex steps).game
  | turn (g : Game) : Reachable g → Reachable (LudoGame.nextTurn g)

/-! ## States and sessions used as concrete inputs -/

/-- A state on the default board: green pawn 0 on cell 11, red pawn 0 on cell 14,
every other pawn in its base. -/
def greenBehindRed : Game :=
  ((newGame none).setPosition .green 0 (.num 11)).setPosition .red 0 (.num 14)

/-- A state on the default board: red pawn 0 on cell 11, green pawn 0 and yellow
pawn 2 on cell 14, every other pawn in its base. -/
def redBehindTwo : Game :=
  (((newGame none).setPosition .red 0 (.num 11)).setPosition .green 0 (.num 14)).setPosition
    .yellow 2 (.num 14)

/-- A state on the default board: red pawn 0 on cell 5, green pawn 1 on cell 8,
every other pawn in its base. -/
def redBeforeSafeCell : Game :=
  ((newGame none).setPosition .red 0 (.num 5)).setPosition .green 1 (.num 8)

/-- A state on the default board: green pawn 0 on cell 15, the cell of index 2
of green's home stretch; every other pawn in its base. -/
def greenOnStretch : Game :=
  (newGame none).setPosition .green 0 (.num 15)

/-- A state on the default board: green pawn 0 on cell 14, the second cell of
green's home stretch, red pawn 0 on cell 11; every other pawn in its base. -/
def greenStretchRedBehind : Game :=
  ((newGame none).setPosition .green 0 (.num 14)).setPosition .red 0 (.num 11)

/-- A session on a fresh game whose random source always yields `0`. -/
def freshSession : LudoCommand.Session :=
  { game := some (newGame none), random := fun _ => 0, drawn := 0 }

/-- A session on a fresh game whose random source yields `7/8` and then `0`. -/
def sixThenOne : LudoCommand.Session :=
  { game := some (newGame none), random := fun n => if n = 0 then 7 / 8 else 0, drawn := 0 }

/-- The binary64 value next below `5/6`. -/
def belowFiveSixths : ℚ := 3752999689475413 / 2 ^ 52

/-- A state on the default board: red pawn 0 on cell 10, red pawns 1 and 3 on
cell 5, green pawn 0 on cell 8; every other pawn in its base. -/
def redThreeOnTrack : Game :=
  ((((newGame none).setPosition .red 0 (.num 10)).setPosition .red 1 (.num 5)).setPosition
    .red 3 (.num 5)).setPosition .green 0 (.num 8)

/-- A state on the default board: red pawn 0 on cell 0, every other pawn in its base. -/
def redOnStart : Game :=
  (newGame none).setPosition .red 0 (.num 0)

/-- A statistics map with no entry. -/
def noStats : String → Option PlayerStats := fun _ => none

/-- Two game results: `alice` wins the first with 40 moves, 1 pawn lost and 4
finished; `bob` wins the second, where `alice` has 12 moves, 2 lost, 0 finished. -/
def twoResults : List GameResult :=
  [ { winner := "alice", moves := fun _ => 40, pawnsLost := fun _ => 1, pawnsFinished := fun _ => 4 },
    { winner := "bob", moves := fun _ => 12, pawnsLost := fun _ => 2, pawnsFinished := fun _ => 0 } ]

/-! ## Auxiliary facts about the embedding -/

/-! ### Rounding to binary64 -/

/-- An integer rounds to itself. -/
theorem roundTiesEven_intCast (n : Int) : roundTiesEven (n : ℚ) = n := by
  simp [roundTiesEven]

/-- Rounding moves a value up by at most one half. -/
theorem roundTiesEven_le (x : ℚ) : (roundTiesEven x : ℚ) ≤ x + 1 / 2 := by
  have h1 := Int.floor_add_fract x
  have h2 := Int.fract_nonneg x
  unfold roundTiesEven
  split_ifs with a b c
  · linarith
  · push_cast; linarith
  · linarith
  · push_cast
    have : Int.fract x = 1 / 2 := le_antisymm (not_lt.1 b) (not_lt.1 a)
    linarith

/-- Rounding moves a value down by at most one half. -/
theorem le_roundTiesEven (x : ℚ) : x - 1 / 2 ≤ (roundTiesEven x : ℚ) := by
  have h1 := Int.floor_add_fract x
  have h2 := Int.fract_lt_one x
  unfold roundTiesEven
  split_ifs with a b c
  · linarith
  · push_cast; linarith
  · have : Int.fract x = 1 / 2 := le_antisymm (not_lt.1 b) (not_lt.1 a)
    linarith
  · push_cast; linarith

/-- The exponent of the leading bit of a value in `[2 ^ k, 2 ^ (k + 1))`. -/
theorem log_two_eq (x : ℚ) (k : Int) (h1 : (2 : ℚ) ^ k ≤ x) (h2 : x < (2 : ℚ) ^ (k + 1)) :
    Int.log 2 x = k := by
  have hx : 0 < x := lt_of_lt_of_le (by positivity) h1
  have a : k ≤ Int.log 2 x := (Int.zpow_le_iff_le_log (by norm_num) hx).1 (by exact_mod_cast h1)
  have b : Int.log 2 x < k + 1 := (Int.lt_zpow_iff_log_lt (by norm_num) hx).1 (by exact_mod_cast h2)
  omega

/-- The spacing exponent of a value in the normal binade `[2 ^ k, 2 ^ (k + 1))`. -/
theorem ulpExponent_eq (x : ℚ) (k : Int) (hk : -1022 ≤ k) (h1 : (2 : ℚ) ^ k ≤ x)
    (h2 : x < (2 : ℚ) ^ (k + 1)) : ulpExponent x = k - 52 := by
  have hx : 0 < x := lt_of_lt_of_le (by positivity) h1
  unfold ulpExponent
  rw [abs_of_pos hx, log_two_eq x k h1 h2]
  omega

/-- A non-negative value rounds to a non-negative integer. -/
theorem roundTiesEven_nonneg (x : ℚ) (hx : 0 ≤ x) : 0 ≤ roundTiesEven x := by
  have h := le_roundTiesEven x
  have h2 : (-1 : ℚ) < (roundTiesEven x : ℚ) := by linarith
  have h3 : (-1 : Int) < roundTiesEven x := by exact_mod_cast h2
  omega

/-- Rounding never goes below the floor. -/
theorem floor_le_roundTiesEven (x : ℚ) : ⌊x⌋ ≤ roundTiesEven x := by
  unfold roundTiesEven
  split_ifs <;> omega

/-- Rounding never goes above an integer that bounds the value. -/
theorem roundTiesEven_le_of_le (x : ℚ) (m : Int) (h : x ≤ (m : ℚ)) : roundTiesEven x ≤ m := by
  have hfl : ⌊x⌋ ≤ m := by
    have : (⌊x⌋ : ℚ) ≤ (m : ℚ) := le_trans (Int.floor_le x) h
    exact_mod_cast this
  by_cases hf : Int.fract x = 0
  · unfold roundTiesEven
    rw [hf, if_pos (by norm_num)]
    exact hfl
  · have hlt : ⌊x⌋ < m := by
      have h0 : 0 < Int.fract x := lt_of_le_of_ne (Int.fract_nonneg x) (Ne.symm hf)
      have h1 : (⌊x⌋ : ℚ) < x := by linarith [Int.floor_add_fract x]
      have : (⌊x⌋ : ℚ) < (m : ℚ) := lt_of_lt_of_le h1 h
      exact_mod_cast this
    unfold roundTiesEven
    split_ifs <;> omega

/-- A multiple of the spacing of its own binade is a binary64 value. -/
theorem roundBinary64_of_grid (x : ℚ) (k n : Int) (hk : -1022 ≤ k) (h1 : (2 : ℚ) ^ k ≤ x)
    (h2 : x < (2 : ℚ) ^ (k + 1)) (hx : x = (n : ℚ) * (2 : ℚ) ^ (k - 52)) :
    roundBinary64 x = x := by
  unfold roundBinary64
  rw [ulpExponent_eq x k hk h1 h2]
  have hpos : (2 : ℚ) ^ (k - 52) ≠ 0 := by positivity
  have hdiv : x / (2 : ℚ) ^ (k - 52) = (n : ℚ) := by
    rw [hx, mul_div_assoc, div_self hpos, mul_one]
  rw [hdiv, roundTiesEven_intCast, hx]

/-- Zero is a binary64 value. -/
theorem roundBinary64_zero : roundBinary64 0 = 0 := by
  simp [roundBinary64, roundTiesEven]

/-- For `0 ≤ x < 8` the unit in the last place is at most `2 ^ (-50)`. -/
theorem ulpExponent_le (x : ℚ) (h0 : 0 ≤ x) (h8 : x < 8) : ulpExponent x ≤ -50 := by
  unfold ulpExponent
  rcases h0.eq_or_lt with h | h
  · rw [← h]
    simp
  · have hlog : Int.log 2 x < 3 :=
      (Int.lt_zpow_iff_log_lt (by norm_num) h).1 (by norm_num; linarith)
    rw [abs_of_pos h]
    omega

/-- A non-negative value rounds to a non-negative binary64 value. -/
theorem roundBinary64_nonneg (x : ℚ) (h0 : 0 ≤ x) : 0 ≤ roundBinary64 x := by
  unfold roundBinary64
  have hp : (0 : ℚ) < 2 ^ ulpExponent x := by positivity
  have hr : (0 : ℚ) ≤ (roundTiesEven (x / 2 ^ ulpExponent x) : ℚ) := by
    exact_mod_cast roundTiesEven_nonneg _ (div_nonneg h0 hp.le)
  positivity

/-- A binary64 value below 1 is at most `1 - 2 ^ (-53)`. -/
theorem binary64_lt_one (r : ℚ) (hr : roundBinary64 r = r) (h1 : r < 1) :
    r ≤ 1 - 1 / 2 ^ 53 := by
  by_cases hhalf : r < 1 / 2
  · have : (1 : ℚ) / 2 ^ 53 ≤ 1 / 2 := by norm_num
    linarith
  · have he : ulpExponent r = -53 := by
      have := ulpExponent_eq r (-1) (by norm_num) (by norm_num; linarith) (by norm_num; linarith)
      rw [this]
      norm_num
    unfold roundBinary64 at hr
    rw [he] at hr
    have hz : (2 : ℚ) ^ (-53 : Int) = 1 / 2 ^ 53 := by norm_num
    rw [hz] at hr
    have hlt : (roundTiesEven (r / (1 / 2 ^ 53)) : ℚ) < ((2 ^ 53 : Int) : ℚ) := by
      push_cast
      have : (roundTiesEven (r / (1 / 2 ^ 53)) : ℚ) * (1 / 2 ^ 53) < 1 := by rw [hr]; exact h1
      have h53 : (0 : ℚ) < 2 ^ 53 := by positivity
      rw [mul_one_div, div_lt_one h53] at this
      exact this
    have hle : roundTiesEven (r / (1 / 2 ^ 53)) ≤ 2 ^ 53 - 1 := by
      have : roundTiesEven (r / (1 / 2 ^ 53)) < 2 ^ 53 := by exact_mod_cast hlt
      omega
    have hle2 : (roundTiesEven (r / (1 / 2 ^ 53)) : ℚ) ≤ 2 ^ 53 - 1 := by exact_mod_cast hle
    rw [← hr]
    have h53 : (0 : ℚ) < 1 / 2 ^ 53 := by positivity
    calc (roundTiesEven (r / (1 / 2 ^ 53)) : ℚ) * (1 / 2 ^ 53)
        ≤ (2 ^ 53 - 1) * (1 / 2 ^ 53) := mul_le_mul_of_nonneg_right hle2 h53.le
      _ = 1 - 1 / 2 ^ 53 := by norm_num

/-- The rounded product `r * 6` stays below 6 for a binary64 `r` below 1. -/
theorem roundBinary64_mul_six_lt (r : ℚ) (h0 : 0 ≤ r) (h1 : r < 1) (hr : roundBinary64 r = r) :
    roundBinary64 (r * 6) < 6 := by
  have hx0 : 0 ≤ r * 6 := by positivity
  have hx8 : r * 6 < 8 := by linarith
  by_cases h4 : r * 6 < 4
  · have he := ulpExponent_le (r * 6) hx0 hx8
    have hp : (0 : ℚ) < 2 ^ ulpExponent (r * 6) := by positivity
    have hp1 : (2 : ℚ) ^ ulpExponent (r * 6) ≤ 1 := by
      have : (2 : ℚ) ^ ulpExponent (r * 6) ≤ 2 ^ (0 : Int) :=
        zpow_le_zpow_right₀ (by norm_num) (by omega)
      simpa using this
    have hround := roundTiesEven_le (r * 6 / 2 ^ ulpExponent (r * 6))
    unfold roundBinary64
    calc (roundTiesEven (r * 6 / 2 ^ ulpExponent (r * 6)) : ℚ) * 2 ^ ulpExponent (r * 6)
        ≤ (r * 6 / 2 ^ ulpExponent (r * 6) + 1 / 2) * 2 ^ ulpExponent (r * 6) :=
          mul_le_mul_of_nonneg_right hround hp.le
      _ = r * 6 + 2 ^ ulpExponent (r * 6) / 2 := by
          field_simp
          ring
      _ < 6 := by linarith
  · have he : ulpExponent (r * 6) = -50 := by
      have := ulpExponent_eq (r * 6) 2 (by norm_num) (by norm_num; linarith) (by norm_num; linarith)
      rw [this]
      norm_num
    have hmax := binary64_lt_one r hr h1
    have hz : (2 : ℚ) ^ (-50 : Int) = 1 / 2 ^ 50 := by norm_num
    unfold roundBinary64
    rw [he, hz]
    have hy : r * 6 / (1 / 2 ^ 50) + 1 / 2 ≤ ((6 * 2 ^ 50 - 1 : Int) : ℚ) + 3 / 4 := by
      push_cast
      have : r * 6 / (1 / 2 ^ 50) = r * 6 * 2 ^ 50 := by field_simp
      rw [this]
      have h2 : r * 6 * 2 ^ 50 ≤ (1 - 1 / 2 ^ 53) * 6 * 2 ^ 50 := by
        have : (0 : ℚ) ≤ 6 * 2 ^ 50 := by positivity
        nlinarith
      have h3 : (1 - 1 / 2 ^ 53 : ℚ) * 6 * 2 ^ 50 = 6 * 2 ^ 50 - 3 / 4 := by norm_num
      linarith
    have hround := roundTiesEven_le (r * 6 / (1 / 2 ^ 50))
    have hlt : (roundTiesEven (r * 6 / (1 / 2 ^ 50)) : ℚ) < ((6 * 2 ^ 50 - 1 : Int) : ℚ) + 1 := by
      linarith
    have hle : roundTiesEven (r * 6 / (1 / 2 ^ 50)) ≤ 6 * 2 ^ 50 - 1 := by
      have : roundTiesEven (r * 6 / (1 / 2 ^ 50)) < (6 * 2 ^ 50 - 1) + 1 := by exact_mod_cast hlt
      omega
    have hle2 : (roundTiesEven (r * 6 / (1 / 2 ^ 50)) : ℚ) ≤ 6 * 2 ^ 50 - 1 := by
      exact_mod_cast hle
    have h50 : (0 : ℚ) < 1 / 2 ^ 50 := by positivity
    calc (roundTiesEven (r * 6 / (1 / 2 ^ 50)) : ℚ) * (1 / 2 ^ 50)
        ≤ (6 * 2 ^ 50 - 1) * (1 / 2 ^ 50) := mul_le_mul_of_nonneg_right hle2 h50.le
      _ < 6 := by norm_num

/-- The roll lies in 1..6 for every binary64 value of `[0, 1)`. -/
theorem rollDice_bounds (r : ℚ) (h0 : 0 ≤ r) (h1 : r < 1) (hr : roundBinary64 r = r) :
    1 ≤ LudoGame.rollDice r ∧ LudoGame.rollDice r ≤ 6 := by
  have hlo : 0 ≤ ⌊roundBinary64 (r * 6)⌋ :=
    Int.floor_nonneg.2 (roundBinary64_nonneg _ (by positivity))
  have hhi : ⌊roundBinary64 (r * 6)⌋ < 6 :=
    Int.floor_lt.2 (by exact_mod_cast roundBinary64_mul_six_lt r h0 h1 hr)
  unfold LudoGame.rollDice
  omega

/-- The rounded product lies between the integers around the exact product. -/
theorem floor_roundBinary64 (x : ℚ) (h0 : 0 ≤ x) (h8 : x < 8) :
    ⌊x⌋ ≤ ⌊roundBinary64 x⌋ ∧ ⌊roundBinary64 x⌋ ≤ ⌊x⌋ + 1 := by
  have he := ulpExponent_le x h0 h8
  obtain ⟨n, hn⟩ : ∃ n : Nat, ulpExponent x = -(n : Int) := ⟨(-ulpExponent x).toNat, by omega⟩
  have hp : (0 : ℚ) < 2 ^ n := by positivity
  have hz : (2 : ℚ) ^ ulpExponent x = 1 / 2 ^ n := by
    rw [hn, zpow_neg, zpow_natCast, one_div]
  have hdiv : x / (1 / 2 ^ n) = x * 2 ^ n := by field_simp
  unfold roundBinary64
  rw [hz, hdiv]
  constructor
  · apply Int.le_floor.2
    have h1 : (⌊x⌋ * 2 ^ n : Int) ≤ roundTiesEven (x * 2 ^ n) := by
      refine le_trans ?_ (floor_le_roundTiesEven _)
      apply Int.le_floor.2
      push_cast
      exact mul_le_mul_of_nonneg_right (Int.floor_le x) hp.le
    have h2 : ((⌊x⌋ * 2 ^ n : Int) : ℚ) ≤ (roundTiesEven (x * 2 ^ n) : ℚ) := by exact_mod_cast h1
    push_cast at h2
    rw [mul_one_div, le_div_iff₀ hp]
    exact h2
  · have h1 : roundTiesEven (x * 2 ^ n) ≤ (⌊x⌋ + 1) * 2 ^ n := by
      apply roundTiesEven_le_of_le
      push_cast
      exact mul_le_mul_of_nonneg_right (Int.lt_floor_add_one x).le hp.le
    have h2 : (roundTiesEven (x * 2 ^ n) : ℚ) ≤ (((⌊x⌋ + 1) * 2 ^ n : Int) : ℚ) := by
      exact_mod_cast h1
    push_cast at h2
    have h3 : (roundTiesEven (x * 2 ^ n) : ℚ) * (1 / 2 ^ n) ≤ ((⌊x⌋ + 1 : Int) : ℚ) := by
      rw [mul_one_div, div_le_iff₀ hp]
      push_cast
      exact h2
    exact Int.floor_le_iff.2 (by push_cast at h3 ⊢; linarith) 

/-- The roll when the product `r * 6` is itself a binary64 value. -/
theorem rollDice_of_exact (r : ℚ) (v : Int) (h : roundBinary64 (r * 6) = r * 6)
    (hv : ⌊r * 6⌋ = v) : LudoGame.rollDice r = v + 1 := by
  unfold LudoGame.rollDice
  rw [h, hv]

/-- The roll for `Math.random() = 0`. -/
theorem rollDice_zero : LudoGame.rollDice 0 = 1 := by
  simp [LudoGame.rollDice, roundBinary64_zero]

/-- The roll for `Math.random() = 0.375`. -/
theorem rollDice_three_eighths : LudoGame.rollDice (3 / 8) = 3 :=
  rollDice_of_exact _ 2
    (roundBinary64_of_grid _ 1 (9 * 2 ^ 49) (by norm_num) (by norm_num) (by norm_num)
      (by norm_num))
    (by rw [Int.floor_eq_iff]; norm_num)

/-- The roll for `Math.random() = 0.875`. -/
theorem rollDice_seven_eighths : LudoGame.rollDice (7 / 8) = 6 :=
  rollDice_of_exact _ 5
    (roundBinary64_of_grid _ 2 (21 * 2 ^ 48) (by norm_num) (by norm_num) (by norm_num)
      (by norm_num))
    (by rw [Int.floor_eq_iff]; norm_num)

/-! ### Positions and the capture pass -/

@[simp] theorem setPosition_board (g : Game) (p : Player) (i : Fin 4) (v : Pos) :
    (g.setPosition p i v).board = g.board := rfl

@[simp] theorem setPosition_currentPlayer (g : Game) (p : Player) (i : Fin 4) (v : Pos) :
    (g.setPosition p i v).currentPlayer = g.currentPlayer := rfl

theorem setPosition_pawns (g : Game) (p : Player) (i : Fin 4) (v : Pos) (q : Player) (j : Fin 4) :
    (g.setPosition p i v).pawns q j = if q = p ∧ j = i then v else g.pawns q j := rfl

@[simp] theorem setPosition_pawns_self (g : Game) (p : Player) (i : Fin 4) (v : Pos) :
    (g.setPosition p i v).pawns p i = v := by
  simp [setPosition_pawns]

theorem setPosition_pawns_seat (g : Game) (p : Player) (i : Fin 4) (v : Pos) (q : Player)
    (j : Fin 4) (h : q ≠ p) : (g.setPosition p i v).pawns q j = g.pawns q j := by
  simp [setPosition_pawns, h]

theorem setPosition_pawns_index (g : Game) (p : Player) (i : Fin 4) (v : Pos) (q : Player)
    (j : Fin 4) (h : j ≠ i) : (g.setPosition p i v).pawns q j = g.pawns q j := by
  simp [setPosition_pawns, h]

theorem mem_players (q : Player) : q ∈ players := by
  cases q <;> simp [players]

theorem mem_pawnIndices (j : Fin 4) : j ∈ pawnIndices := by
  fin_cases j <;> simp [pawnIndices]

namespace LudoGame

/-- The inner loop leaves the board and the seat index alone, and every pawn
either keeps its position or is a pawn of `otherPlayer` sent to `-1`. -/
theorem captureLoop_frame (other : Player) (position : Pos) :
    ∀ (is : List (Fin 4)) (g : Game),
      (captureLoop other position is g).game.board = g.board ∧
      (captureLoop other position is g).game.currentPlayer = g.currentPlayer ∧
      ∀ q j, (captureLoop other position is g).game.pawns q j = g.pawns q j ∨
        (q = other ∧ (captureLoop other position is g).game.pawns q j = .num (-1)) := by
  intro is
  induction is with
  | nil => intro g; simp [captureLoop, Outcome.game]
  | cons i rest ih =>
    intro g
    rw [captureLoop]
    split_ifs with h
    · cases hb : boardAt g.board position with
      | none => simp [Outcome.game]
      | some cell =>
        simp only []
        split_ifs with hs
        · obtain ⟨h1, h2, h3⟩ := ih (g.setPosition other i (.num (-1)))
          refine ⟨by simpa using h1, by simpa using h2, fun q j => ?_⟩
          rcases h3 q j with h4 | h4
          · rw [h4, setPosition_pawns]
            by_cases hq : q = other ∧ j = i
            · right
              exact ⟨hq.1, by simp [hq]⟩
            · left
              simp [hq]
          · right
            exact h4
        · exact ih g
    · exact ih g

/-- The whole capture pass leaves the board and the seat index alone, and every
pawn either keeps its position or is a pawn of another seat sent to `-1`. -/
theorem checkCaptureFrom_frame (player : Player) (position : Pos) :
    ∀ (os : List Player) (g : Game),
      (checkCaptureFrom player position os g).game.board = g.board ∧
      (checkCaptureFrom player position os g).game.currentPlayer = g.currentPlayer ∧
      ∀ q j, (checkCaptureFrom player position os g).game.pawns q j = g.pawns q j ∨
        (q ≠ player ∧ (checkCaptureFrom player position os g).game.pawns q j = .num (-1)) := by
  intro os
  induction os with
  | nil => intro g; simp [checkCaptureFrom, Outcome.game]
  | cons o rest ih =>
    intro g
    rw [checkCaptureFrom]
    split_ifs with h
    · obtain ⟨h1, h2, h3⟩ := captureLoop_frame o position pawnIndices g
      cases hc : captureLoop o position pawnIndices g with
      | typeError g1 =>
        rw [hc] at h1 h2 h3
        refine ⟨h1, h2, fun q j => ?_⟩
        rcases h3 q j with h4 | h4
        · exact Or.inl h4
        · exact Or.inr ⟨h4.1 ▸ h, h4.2⟩
      | done g1 =>
        rw [hc] at h1 h2 h3
        simp only [Outcome.game] at h1 h2 h3
        obtain ⟨k1, k2, k3⟩ := ih g1
        refine ⟨k1.trans h1, k2.trans h2, fun q j => ?_⟩
        rcases k3 q j with k4 | k4
        · rcases h3 q j with h4 | h4
          · exact Or.inl (k4.trans h4)
          · exact Or.inr ⟨h4.1 ▸ h, k4.trans h4.2⟩
        · exact Or.inr k4
    · exact ih g

/-- On a cell flagged safe the inner loop changes nothing and returns. -/
theorem captureLoop_safe (other : Player) (position : Pos) (cell : Cell) (hsafe : cell.safe = true) :
    ∀ (is : List (Fin 4)) (g : Game), boardAt g.board position = some cell →
      captureLoop other position is g = .done g := by
  intro is
  induction is with
  | nil => intro g _; rfl
  | cons i rest ih =>
    intro g hb
    rw [captureLoop]
    split_ifs with h
    · simp only [hb, hsafe]
      simpa using ih g hb
    · exact ih g hb

/-- On a cell flagged safe the capture pass changes nothing and returns. -/
theorem checkCaptureFrom_safe (player : Player) (position : Pos) (cell : Cell)
    (hsafe : cell.safe = true) :
    ∀ (os : List Player) (g : Game), boardAt g.board position = some cell →
      checkCaptureFrom player position os g = .done g := by
  intro os
  induction os with
  | nil => intro g _; rfl
  | cons o rest ih =>
    intro g hb
    rw [checkCaptureFrom]
    split_ifs with h
    · rw [captureLoop_safe o position cell hsafe pawnIndices g hb]
      exact ih g hb
    · exact ih g hb

/-- On a cell that exists and is not flagged safe the inner loop returns, and
every listed pawn of `otherPlayer` that stood on the cell is at `-1` afterwards. -/
theorem captureLoop_capture (other : Player) (position : Pos) (cell : Cell)
    (hsafe : cell.safe = false) :
    ∀ (is : List (Fin 4)) (g : Game), boardAt g.board position = some cell →
      ∃ r, captureLoop other position is g = .done r ∧
        ∀ j ∈ is, strictEq (g.pawns other j) position = true → r.pawns other j = .num (-1) := by
  intro is
  induction is with
  | nil => intro g _; exact ⟨g, rfl, by simp⟩
  | cons i rest ih =>
    intro g hb
    rw [captureLoop]
    split_ifs with h
    · simp only [hb, hsafe]
      obtain ⟨r, hr, hcap⟩ := ih (g.setPosition other i (.num (-1))) (by simpa using hb)
      refine ⟨r, by simpa using hr, fun j hj hj2 => ?_⟩
      by_cases hji : j = i
      · subst hji
        have hf := (captureLoop_frame other position rest (g.setPosition other j (.num (-1)))).2.2 other j
        rw [hr] at hf
        simp only [Outcome.game, setPosition_pawns_self] at hf
        rcases hf with hf | hf
        · exact hf
        · exact hf.2
      · have hj3 : j ∈ rest := by
          rcases List.mem_cons.1 hj with hj4 | hj4
          · exact absurd hj4 hji
          · exact hj4
        exact hcap j hj3 (by rw [setPosition_pawns_index _ _ _ _ _ _ hji]; exact hj2)
    · obtain ⟨r, hr, hcap⟩ := ih g hb
      refine ⟨r, hr, fun j hj hj2 => ?_⟩
      rcases List.mem_cons.1 hj with hj4 | hj4
      · subst hj4
        exact absurd hj2 h
      · exact hcap j hj4 hj2

/-- On a cell that exists and is not flagged safe the capture pass returns, and
every pawn of a listed seat other than `player` that stood on the cell is at
`-1` afterwards. -/
theorem checkCaptureFrom_capture (player : Player) (position : Pos) (cell : Cell)
    (hsafe : cell.safe = false) :
    ∀ (os : List Player) (g : Game), boardAt g.board position = some cell →
      ∃ r, checkCaptureFrom player position os g = .done r ∧
        ∀ q ∈ os, q ≠ player → ∀ j, strictEq (g.pawns q j) position = true →
          r.pawns q j = .num (-1) := by
  intro os
  induction os with
  | nil => intro g _; exact ⟨g, rfl, by simp⟩
  | cons o rest ih =>
    intro g hb
    rw [checkCaptureFrom]
    split_ifs with h
    · obtain ⟨g1, hg1, hcap1⟩ := captureLoop_capture o position cell hsafe pawnIndices g hb
      have hfr := captureLoop_frame o position pawnIndices g
      rw [hg1] at hfr
      simp only [Outcome.game] at hfr
      obtain ⟨r, hr, hcap⟩ := ih g1 (by rw [hfr.1]; exact hb)
      rw [hg1]
      refine ⟨r, hr, fun q hq hqp j hj => ?_⟩
      have hfr2 := (checkCaptureFrom_frame player position rest g1).2.2 q j
      rw [hr] at hfr2
      simp only [Outcome.game] at hfr2
      by_cases hqo : q = o
      · subst hqo
        have h1 : g1.pawns q j = .num (-1) := hcap1 j (mem_pawnIndices j) hj
        rcases hfr2 with h2 | h2
        · exact h2.trans h1
        · exact h2.2
      · have hq2 : q ∈ rest := by
          rcases List.mem_cons.1 hq with h3 | h3
          · exact absurd h3 hqo
          · exact h3
        have h1 : g1.pawns q j = g.pawns q j := by
          rcases hfr.2.2 q j with h3 | h3
          · exact h3
          · exact absurd h3.1 hqo
        exact hcap q hq2 hqp j (by rw [h1]; exact hj)
    · obtain ⟨r, hr, hcap⟩ := ih g hb
      refine ⟨r, hr, fun q hq hqp j hj => ?_⟩
      have ho : o = player := by simpa using h
      rcases List.mem_cons.1 hq with h3 | h3
      · exact absurd (h3.trans ho) hqp
      · exact hcap q h3 hqp j hj

end LudoGame

theorem jsMod_of_nonneg (a : Int) (h : 0 ≤ a) : jsMod a 52 = a % 52 :=
  Int.tmod_eq_emod h (by decide)

/-- The default board has an entry at every index `0..51`, flagged safe exactly
on the listed cells. -/
theorem boardAt_createDefaultBoard (d : Int) (h0 : 0 ≤ d) (h1 : d ≤ 51) :
    boardAt createDefaultBoard (.num d) =
      some { position := d, type := "normal", safe := safeCells.contains d } := by
  interval_cases d <;> rfl

/-! ## Captures on the shared track -/

/-- C1, as stated, fails: green pawn 0 stands on track cell 11, the landing cell
`(11 + 3) mod 52 = 14` is not flagged safe and holds red pawn 0, yet after
`movePawn(green, 0, 3)` red pawn 0 is still on cell 14 and not at `-1`. -/
theorem movePawn_capture_skipped_in_own_stretch :
    greenBehindRed.board = createDefaultBoard ∧
    greenBehindRed.pawns .green 0 = .num 11 ∧
    (11 + 3 : Int) % 52 = 14 ∧
    (14 : Int) ∉ safeCells ∧
    greenBehindRed.pawns .red 0 = .num 14 ∧
    (LudoGame.movePawn greenBehindRed .green 0 3).game.pawns .green 0 = .num 14 ∧
    (LudoGame.movePawn greenBehindRed .green 0 3).game.pawns .red 0 = .num 14 ∧
    (LudoGame.movePawn greenBehindRed .green 0 3).game.pawns .red 0 ≠ .num (-1) := by
  decide

/-- C1, amended: on the default board, when pawn `i` of seat `p` stands on track
cell `c` (0..51), `steps` is in 1..6, and the landing cell `d = (c + steps) mod 52`
is not flagged safe and does not lie in the home stretch of `p`, then
`movePawn(p, i, steps)` returns and every pawn of another seat that stood on `d`
is at `-1` (Base) afterwards. -/
theorem movePawn_captures_outside_own_stretch (g : Game) (p : Player) (i : Fin 4)
    (steps c : Int) (hboard : g.board = createDefaultBoard)
    (hs1 : 1 ≤ steps) (hs6 : steps ≤ 6)
    (hpos : g.pawns p i = .num c) (hc0 : 0 ≤ c) (hc1 : c ≤ 51)
    (hsafe : (c + steps) % 52 ∉ safeCells)
    (hstretch : LudoGame.isInHomeStretch p (.num ((c + steps) % 52)) = false) :
    (LudoGame.movePawn g p i steps).returned = true ∧
    ∀ q j, q ≠ p → g.pawns q j = .num ((c + steps) % 52) →
      (LudoGame.movePawn g p i steps).game.pawns q j = .num (-1) := by
  have hd0 : 0 ≤ (c + steps) % 52 := Int.emod_nonneg _ (by decide)
  have hd1 : (c + steps) % 52 ≤ 51 := by omega
  have hadv : advance (.num c) steps = .num ((c + steps) % 52) := by
    simp [advance, jsMod_of_nonneg (c + steps) (by omega)]
  have hne : (Pos.num c) ≠ .num (-1) := by
    intro h
    injection h with h
    omega
  have hcell := boardAt_createDefaultBoard ((c + steps) % 52) hd0 hd1
  have hflag : safeCells.contains ((c + steps) % 52) = false := by
    simpa using hsafe
  obtain ⟨r, hr, hcap⟩ := LudoGame.checkCaptureFrom_capture p (.num ((c + steps) % 52))
    (Cell.mk ((c + steps) % 52) "normal" (safeCells.contains ((c + steps) % 52))) hflag players
    (g.setPosition p i (.num ((c + steps) % 52))) (by rw [setPosition_board, hboard]; exact hcell)
  have hmove : LudoGame.movePawn g p i steps = .done r := by
    unfold LudoGame.movePawn
    simp only [hpos, hadv, hstretch, LudoGame.checkCapture]
    rw [if_neg (fun h => hne h.1), if_pos hne]
    simpa using hr
  rw [hmove]
  refine ⟨rfl, fun q j hq hqj => ?_⟩
  apply hcap q (mem_players q) hq j
  rw [setPosition_pawns_seat _ _ _ _ _ _ hq, hqj]
  simp [strictEq]

/-- The amended C1 at a concrete state: red moves pawn 0 from 11 by 3 onto cell 14. -/
theorem movePawn_captures_outside_own_stretch_witness :
    (LudoGame.movePawn redBehindTwo .red 0 3).returned = true ∧
    ∀ q j, q ≠ Player.red → redBehindTwo.pawns q j = .num ((11 + 3) % 52) →
      (LudoGame.movePawn redBehindTwo .red 0 3).game.pawns q j = .num (-1) :=
  movePawn_captures_outside_own_stretch redBehindTwo .red 0 3 11 rfl (by decide) (by decide)
    rfl (by decide) (by decide) (by decide) (by decide)

/-- Every flagged index is an index of the default board. -/
theorem safeCells_bounds (d : Int) (hd : d ∈ safeCells) : 0 ≤ d ∧ d ≤ 51 := by
  simp only [safeCells, List.mem_cons, List.mem_singleton, List.not_mem_nil, or_false] at hd
  omega

/-- C2: on the default board, for any number of steps (1..6 in particular), when
`movePawn(p, i, steps)` leaves pawn `i` of `p` on a safe cell (0, 8, 13, 21, 26,
34, 39 or 47; the start cell reached from Base included) it returns and the
position of every pawn of every other seat is unchanged. -/
theorem movePawn_onto_safe_cell_captures_nothing (g : Game) (p : Player) (i : Fin 4)
    (steps d : Int) (hboard : g.board = createDefaultBoard) (hd : d ∈ safeCells)
    (hland : (LudoGame.movePawn g p i steps).game.pawns p i = .num d) :
    (LudoGame.movePawn g p i steps).returned = true ∧
    ∀ q j, q ≠ p → (LudoGame.movePawn g p i steps).game.pawns q j = g.pawns q j := by
  unfold LudoGame.movePawn at hland ⊢
  simp only at hland ⊢
  split_ifs at hland ⊢ with h1 h2 h3 h4
  · exact ⟨rfl, fun q j hq => setPosition_pawns_seat _ _ _ _ _ _ hq⟩
  · exact ⟨rfl, fun q j hq => setPosition_pawns_seat _ _ _ _ _ _ hq⟩
  · exact ⟨rfl, fun q j hq => setPosition_pawns_seat _ _ _ _ _ _ hq⟩
  · have hfr := (LudoGame.checkCaptureFrom_frame p (advance (g.pawns p i) steps) players
      (g.setPosition p i (advance (g.pawns p i) steps))).2.2 p i
    have hnew : advance (g.pawns p i) steps = .num d := by
      unfold LudoGame.checkCapture at hland
      rcases hfr with hfr | hfr
      · rw [hfr, setPosition_pawns_self] at hland
        exact hland
      · exact absurd rfl hfr.1
    obtain ⟨hd0, hd1⟩ := safeCells_bounds d hd
    have hflag : safeCells.contains d = true := by simpa using hd
    have hdone := LudoGame.checkCaptureFrom_safe p (.num d)
      (Cell.mk d "normal" (safeCells.contains d)) hflag players (g.setPosition p i (.num d))
      (by rw [setPosition_board, hboard]; exact boardAt_createDefaultBoard d hd0 hd1)
    unfold LudoGame.checkCapture
    rw [hnew, hdone]
    exact ⟨rfl, fun q j hq => setPosition_pawns_seat _ _ _ _ _ _ hq⟩
  · exact ⟨rfl, fun q j _ => rfl⟩

/-- C2 at a concrete state: red moves pawn 0 from 5 by 3 onto safe cell 8, where
green pawn 1 stands. -/
theorem movePawn_onto_safe_cell_captures_nothing_witness :
    (LudoGame.movePawn redBeforeSafeCell .red 0 3).returned = true ∧
    ∀ q j, q ≠ Player.red →
      (LudoGame.movePawn redBeforeSafeCell .red 0 3).game.pawns q j =
        redBeforeSafeCell.pawns q j :=
  movePawn_onto_safe_cell_captures_nothing redBeforeSafeCell .red 0 3 8 rfl (by decide)
    (by decide)

/-! ## The enumeration of legal moves -/

/-- Which pawn indices `getPossibleMoves` lists. -/
theorem mem_getPossibleMoves_index (g : Game) (p : Player) (roll : Int) (i : Fin 4) :
    i ∈ (LudoAI.getPossibleMoves g p roll).map LudoAI.Move.index ↔
      (g.pawns p i = .num (-1) ∧ roll = 6) ∨ (g.pawns p i ≠ .num (-1) ∧ g.pawns p i ≠ .home) := by
  simp only [LudoAI.getPossibleMoves, List.mem_map, List.mem_filter, Bool.or_eq_true,
    Bool.and_eq_true, decide_eq_true_eq]
  constructor
  · rintro ⟨m, ⟨⟨k, _, rfl⟩, hk⟩, rfl⟩
    exact hk
  · intro h
    exact ⟨⟨i, g.pawns p i⟩, ⟨⟨i, mem_pawnIndices i, rfl⟩, h⟩, rfl⟩

/-- Which pawn indices the list of `handleRoll` holds. -/
theorem mem_possibleMoves (g : Game) (p : Player) (roll : Int) (i : Fin 4) :
    i ∈ LudoCommand.possibleMoves g p roll ↔
      (g.pawns p i = .num (-1) ∧ roll = 6) ∨ (g.pawns p i ≠ .num (-1) ∧ g.pawns p i ≠ .home) := by
  simp only [LudoCommand.possibleMoves, List.mem_filterMap, List.mem_map, id]
  constructor
  · rintro ⟨a, ⟨k, _, rfl⟩, hk⟩
    split_ifs at hk with h1 h2
    · cases hk
      exact Or.inl h1
    · cases hk
      exact Or.inr h2
  · intro h
    refine ⟨some i, ⟨i, mem_pawnIndices i, ?_⟩, rfl⟩
    rcases h with h | h
    · rw [if_pos h]
    · by_cases h1 : g.pawns p i = .num (-1) ∧ roll = 6
      · rw [if_pos h1]
      · rw [if_neg h1, if_pos h]

/-- The indices `getPossibleMoves` lists are in ascending order. -/
theorem getPossibleMoves_sorted (g : Game) (p : Player) (roll : Int) :
    ((LudoAI.getPossibleMoves g p roll).map LudoAI.Move.index).Pairwise (· < ·) := by
  have hsub : ((LudoAI.getPossibleMoves g p roll).map LudoAI.Move.index).Sublist pawnIndices := by
    have h1 : (pawnIndices.map fun index =>
        ({ index := index, position := g.pawns p index } : LudoAI.Move)).map LudoAI.Move.index
          = pawnIndices := by
      simp [List.map_map, Function.comp_def]
    have h2 := (List.filter_sublist (p := fun pawn : LudoAI.Move =>
        (decide (pawn.position = .num (-1)) && decide (roll = 6)) ||
        (decide (pawn.position ≠ .num (-1)) && decide (pawn.position ≠ .home)))
      (pawnIndices.map fun index =>
        ({ index := index, position := g.pawns p index } : LudoAI.Move))).map LudoAI.Move.index
    rw [h1] at h2
    exact h2
  exact List.Pairwise.sublist hsub (by decide)

/-- Keeping or dropping each element of a list yields a sublist. -/
theorem filterMap_sublist_self {α : Type} (f : α → Option α) (hf : ∀ a b, f a = some b → b = a) :
    ∀ l : List α, (l.filterMap f).Sublist l := by
  intro l
  induction l with
  | nil => simp
  | cons a l ih =>
    cases h : f a with
    | none =>
      rw [List.filterMap_cons_none h]
      exact ih.cons a
    | some b =>
      rw [List.filterMap_cons_some h, hf a b h]
      exact ih.cons₂ a

/-- The list of `handleRoll` is in ascending order. -/
theorem possibleMoves_sorted (g : Game) (p : Player) (roll : Int) :
    (LudoCommand.possibleMoves g p roll).Pairwise (· < ·) := by
  have hsub : (LudoCommand.possibleMoves g p roll).Sublist pawnIndices := by
    unfold LudoCommand.possibleMoves
    rw [List.filterMap_map]
    apply filterMap_sublist_self
    intro a b hab
    simp only [Function.comp_def, id] at hab
    split_ifs at hab <;> cases hab <;> rfl
  exact List.Pairwise.sublist hsub (by decide)

/-- The cells of a home stretch are consecutive. -/
theorem homeStretch_eq_add (p : Player) (k : Fin 5) :
    homeStretch p k = homeStretch p 0 + (k.val : Int) := by
  cases p <;> fin_cases k <;> rfl

/-! ## Overshooting the end of the home stretch -/

/-- C3, as stated, fails: green pawn 0 stands on its home stretch at index 2,
and with 3 steps (2 + 3 > 4) it is listed by both enumerations and `movePawn`
moves it from cell 15 to cell 18. -/
theorem overshoot_listed_and_moved :
    greenOnStretch.pawns .green 0 = .num (homeStretch .green 2) ∧
    LudoGame.isInHomeStretch .green (greenOnStretch.pawns .green 0) = true ∧
    (2 + 3 : Int) > 4 ∧
    (0 : Fin 4) ∈ (LudoAI.getPossibleMoves greenOnStretch .green 3).map LudoAI.Move.index ∧
    (0 : Fin 4) ∈ LudoCommand.possibleMoves greenOnStretch .green 3 ∧
    (LudoGame.movePawn greenOnStretch .green 0 3).game.pawns .green 0 = .num 18 ∧
    (LudoGame.movePawn greenOnStretch .green 0 3).game.pawns .green 0 ≠
      greenOnStretch.pawns .green 0 := by
  decide

/-- C3, amended: there is no exact-finish rule.  For every seat `p`, every pawn
of `p` standing on cell `homeStretch[p][k]` (stretch index `k` in 0..4) and every
steps in 1..6 with `k + steps > 4`, the pawn is listed by `getPossibleMoves` and
by the list of `handleRoll`, and `movePawn(p, pawn, steps)` moves it to cell
`(homeStretch[p][k] + steps) mod 52`, which is another cell than the one it
stood on. -/
theorem overshoot_moves_pawn (g : Game) (p : Player) (pawn : Fin 4) (k : Fin 5) (steps : Int)
    (hpos : g.pawns p pawn = .num (homeStretch p k))
    (hs1 : 1 ≤ steps) (hs6 : steps ≤ 6) (hover : (k.val : Int) + steps > 4) :
    pawn ∈ (LudoAI.getPossibleMoves g p steps).map LudoAI.Move.index ∧
    pawn ∈ LudoCommand.possibleMoves g p steps ∧
    (LudoGame.movePawn g p pawn steps).game.pawns p pawn =
      .num ((homeStretch p k + steps) % 52) ∧
    (LudoGame.movePawn g p pawn steps).game.pawns p pawn ≠ g.pawns p pawn := by
  have hk : (k.val : Int) ≤ 4 := by have := k.isLt; omega
  have hk0 : (0 : Int) ≤ (k.val : Int) := Int.ofNat_nonneg _
  have hh := homeStretch_eq_add p k
  have h4 := homeStretch_eq_add p 4
  have hbase : homeStretch p 0 = 52 ∨ homeStretch p 0 = 13 ∨ homeStretch p 0 = 26 ∨
      homeStretch p 0 = 39 := by
    cases p <;> simp [homeStretch]
  have h4v : ((4 : Fin 5).val : Int) = 4 := rfl
  rw [h4v] at h4
  have hne : Pos.num (homeStretch p k) ≠ .num (-1) := by
    intro h
    injection h with h
    omega
  have hlisted : (g.pawns p pawn = .num (-1) ∧ steps = 6) ∨
      (g.pawns p pawn ≠ .num (-1) ∧ g.pawns p pawn ≠ .home) := by
    right
    rw [hpos]
    exact ⟨hne, by simp⟩
  have hadv : advance (.num (homeStretch p k)) steps = .num ((homeStretch p k + steps) % 52) := by
    simp [advance, jsMod_of_nonneg (homeStretch p k + steps) (by omega)]
  have hout : LudoGame.isInHomeStretch p (.num ((homeStretch p k + steps) % 52)) = false := by
    simp only [LudoGame.isInHomeStretch, geNum, leNum, Bool.and_eq_false_iff, decide_eq_false_iff_not]
    omega
  have hmoved : (LudoGame.movePawn g p pawn steps).game.pawns p pawn =
      .num ((homeStretch p k + steps) % 52) := by
    unfold LudoGame.movePawn
    simp only [hpos, hadv, hout, LudoGame.checkCapture]
    rw [if_neg (fun h => hne h.1), if_pos hne]
    have hfr := (LudoGame.checkCaptureFrom_frame p (.num ((homeStretch p k + steps) % 52)) players
      (g.setPosition p pawn (.num ((homeStretch p k + steps) % 52)))).2.2 p pawn
    rcases hfr with hfr | hfr
    · simpa using hfr
    · exact absurd rfl hfr.1
  refine ⟨(mem_getPossibleMoves_index g p steps pawn).2 hlisted,
    (mem_possibleMoves g p steps pawn).2 hlisted, hmoved, ?_⟩
  rw [hmoved, hpos]
  intro h
  injection h with h
  omega

/-- The amended C3 at a concrete state: green pawn 0 on stretch index 2, 3 steps. -/
theorem overshoot_moves_pawn_witness :
    (0 : Fin 4) ∈ (LudoAI.getPossibleMoves greenOnStretch .green 3).map LudoAI.Move.index ∧
    (0 : Fin 4) ∈ LudoCommand.possibleMoves greenOnStretch .green 3 ∧
    (LudoGame.movePawn greenOnStretch .green 0 3).game.pawns .green 0 =
      .num ((homeStretch .green 2 + 3) % 52) ∧
    (LudoGame.movePawn greenOnStretch .green 0 3).game.pawns .green 0 ≠
      greenOnStretch.pawns .green 0 :=
  overshoot_moves_pawn greenOnStretch .green 0 2 3 rfl (by decide) (by decide) (by decide)

/-! ## Pawns in the base -/

/-- C4: for every game state, seat, roll (1..6 in particular) and pawn index `i`
whose pawn is at Base (`-1`): `i` is listed by `getPossibleMoves` if and only if
the roll is 6, likewise for the list of `handleRoll`; both lists are in
ascending pawn-index order. -/
theorem base_pawn_listed_iff_six (g : Game) (p : Player) (roll : Int) (i : Fin 4)
    (hbase : g.pawns p i = .num (-1)) :
    (i ∈ (LudoAI.getPossibleMoves g p roll).map LudoAI.Move.index ↔ roll = 6) ∧
    (i ∈ LudoCommand.possibleMoves g p roll ↔ roll = 6) ∧
    ((LudoAI.getPossibleMoves g p roll).map LudoAI.Move.index).Pairwise (· < ·) ∧
    (LudoCommand.possibleMoves g p roll).Pairwise (· < ·) := by
  refine ⟨?_, ?_, getPossibleMoves_sorted g p roll, possibleMoves_sorted g p roll⟩
  · rw [mem_getPossibleMoves_index, hbase]
    simp
  · rw [mem_possibleMoves, hbase]
    simp

/-- C4 at the initial state: pawn 2 of yellow with a roll of 6. -/
theorem base_pawn_listed_iff_six_witness :
    ((2 : Fin 4) ∈ (LudoAI.getPossibleMoves (newGame none) .yellow 6).map LudoAI.Move.index ↔
      (6 : Int) = 6) ∧
    ((2 : Fin 4) ∈ LudoCommand.possibleMoves (newGame none) .yellow 6 ↔ (6 : Int) = 6) ∧
    ((LudoAI.getPossibleMoves (newGame none) .yellow 6).map LudoAI.Move.index).Pairwise (· < ·) ∧
    (LudoCommand.possibleMoves (newGame none) .yellow 6).Pairwise (· < ·) :=
  base_pawn_listed_iff_six (newGame none) .yellow 6 2 rfl

/-- C5: for every game state, seat `p` and pawn index `i` whose pawn is at Base,
`movePawn(p, i, 6)` returns with that pawn on the start cell of `p` (red 0,
green 13, yellow 26, blue 39), every other pawn where it was, and the current
seat and the board as they were; `movePawn(p, i, steps)` with `steps` other than 6
returns with every pawn position unchanged. -/
theorem movePawn_from_base (g : Game) (p : Player) (i : Fin 4)
    (hbase : g.pawns p i = .num (-1)) :
    ((LudoGame.movePawn g p i 6).returned = true ∧
      (LudoGame.movePawn g p i 6).game.pawns p i = .num (startPositions p) ∧
      (∀ q j, (q ≠ p ∨ j ≠ i) → (LudoGame.movePawn g p i 6).game.pawns q j = g.pawns q j) ∧
      (LudoGame.movePawn g p i 6).game.currentPlayer = g.currentPlayer ∧
      (LudoGame.movePawn g p i 6).game.board = g.board) ∧
    (startPositions .red = 0 ∧ startPositions .green = 13 ∧ startPositions .yellow = 26 ∧
      startPositions .blue = 39) ∧
    (∀ steps : Int, steps ≠ 6 →
      (LudoGame.movePawn g p i steps).returned = true ∧
      ∀ q j, (LudoGame.movePawn g p i steps).game.pawns q j = g.pawns q j) := by
  refine ⟨?_, ⟨rfl, rfl, rfl, rfl⟩, ?_⟩
  · have hmove : LudoGame.movePawn g p i 6 =
        .done (g.setPosition p i (.num (startPositions p))) := by
      unfold LudoGame.movePawn
      simp [hbase]
    rw [hmove]
    refine ⟨rfl, by simp [Outcome.game], fun q j hqj => ?_, rfl, rfl⟩
    simp only [Outcome.game, setPosition_pawns]
    rw [if_neg]
    rintro ⟨rfl, rfl⟩
    rcases hqj with h | h <;> exact h rfl
  · intro steps hsteps
    have hmove : LudoGame.movePawn g p i steps = .done g := by
      unfold LudoGame.movePawn
      simp [hbase, hsteps]
    rw [hmove]
    exact ⟨rfl, fun q j => rfl⟩

/-- C5 at the initial state: pawn 1 of blue. -/
theorem movePawn_from_base_witness :
    ((LudoGame.movePawn (newGame none) .blue 1 6).returned = true ∧
      (LudoGame.movePawn (newGame none) .blue 1 6).game.pawns .blue 1 =
        .num (startPositions .blue) ∧
      (∀ q j, (q ≠ Player.blue ∨ j ≠ 1) →
        (LudoGame.movePawn (newGame none) .blue 1 6).game.pawns q j = (newGame none).pawns q j) ∧
      (LudoGame.movePawn (newGame none) .blue 1 6).game.currentPlayer =
        (newGame none).currentPlayer ∧
      (LudoGame.movePawn (newGame none) .blue 1 6).game.board = (newGame none).board) ∧
    (startPositions .red = 0 ∧ startPositions .green = 13 ∧ startPositions .yellow = 26 ∧
      startPositions .blue = 39) ∧
    (∀ steps : Int, steps ≠ 6 →
      (LudoGame.movePawn (newGame none) .blue 1 steps).returned = true ∧
      ∀ q j, (LudoGame.movePawn (newGame none) .blue 1 steps).game.pawns q j =
        (newGame none).pawns q j) :=
  movePawn_from_base (newGame none) .blue 1 rfl

/-! ## The end of the game -/

/-- The test `this.pawns[player].every(pawn => pawn.position === 'home')`. -/
theorem all_home_iff (g : Game) (p : Player) :
    (pawnIndices.all fun i => decide (g.pawns p i = .home)) = true ↔ ∀ i, g.pawns p i = .home := by
  simp only [List.all_eq_true, decide_eq_true_eq]
  exact ⟨fun h i => h i (mem_pawnIndices i), fun h i _ => h i⟩

/-- C6: `isGameOver` returns seat `s` if and only if all four pawns of `s` are
Finished and no seat before `s` in the order red, green, yellow, blue has all
four pawns Finished; it returns the no-winner value if and only if no seat has
all four pawns Finished. -/
theorem isGameOver_first_finished_seat (g : Game) :
    (∀ s, LudoGame.isGameOver g = some s ↔
      ((∀ i, g.pawns s i = .home) ∧
        ∀ t, seatIndex t < seatIndex s → ¬ ∀ i, g.pawns t i = .home)) ∧
    (LudoGame.isGameOver g = none ↔ ∀ s, ¬ ∀ i, g.pawns s i = .home) := by
  have hall : ∀ P : Player → Prop, (∀ t, P t) ↔ (P .red ∧ P .green ∧ P .yellow ∧ P .blue) :=
    fun P => ⟨fun h => ⟨h _, h _, h _, h _⟩, fun h t => by
      cases t
      · exact h.1
      · exact h.2.1
      · exact h.2.2.1
      · exact h.2.2.2⟩
  have e0 : seatIndex .red = 0 := rfl
  have e1 : seatIndex .green = 1 := rfl
  have e2 : seatIndex .yellow = 2 := rfl
  have e3 : seatIndex .blue = 3 := rfl
  simp only [← all_home_iff, hall, e0, e1, e2, e3, LudoGame.isGameOver, players,
    List.find?_cons, List.find?_nil]
  generalize (pawnIndices.all fun i => decide (g.pawns .red i = .home)) = r
  generalize (pawnIndices.all fun i => decide (g.pawns .green i = .home)) = gr
  generalize (pawnIndices.all fun i => decide (g.pawns .yellow i = .home)) = y
  generalize (pawnIndices.all fun i => decide (g.pawns .blue i = .home)) = b
  cases r <;> cases gr <;> cases y <;> cases b <;> simp

/-! ## Pawns on a home stretch -/

/-- C7 fails on the code: green pawn 0 stands on cell 14, which
`isInHomeStretch(green, 14)` accepts, and cell 14 is also an entry of the shared
board; after `movePawn(red, 0, 3)` the red pawn stands on 14 and the green pawn
is back at `-1`. -/
theorem stretch_pawn_captured :
    greenStretchRedBehind.board = createDefaultBoard ∧
    greenStretchRedBehind.pawns .green 0 = .num (homeStretch .green 1) ∧
    LudoGame.isInHomeStretch .green (greenStretchRedBehind.pawns .green 0) = true ∧
    (boardAt greenStretchRedBehind.board (.num (homeStretch .green 1))).isSome = true ∧
    (LudoGame.movePawn greenStretchRedBehind .red 0 3).returned = true ∧
    (LudoGame.movePawn greenStretchRedBehind .red 0 3).game.pawns .red 0 = .num 14 ∧
    (LudoGame.movePawn greenStretchRedBehind .red 0 3).game.pawns .green 0 = .num (-1) := by
  decide

/-! ## The move command -/

namespace LudoCommand

/-- What `handleRoll` draws and reports when there is a game. -/
theorem handleRoll_report (s : Session) (g : Game) (hg : s.game = some g) :
    (handleRoll s).2 = some
      { roll := LudoGame.rollDice (s.random s.drawn)
        possibleMoves := possibleMoves g (playerAt g.currentPlayer)
          (LudoGame.rollDice (s.random s.drawn)) } ∧
    (handleRoll s).1.drawn = s.drawn + 1 ∧
    (handleRoll s).1.random = s.random ∧
    ((possibleMoves g (playerAt g.currentPlayer) (LudoGame.rollDice (s.random s.drawn))).length ≠ 0 →
      (handleRoll s).1.game = some g) := by
  unfold handleRoll
  simp only [hg]
  split_ifs with h
  · exact ⟨rfl, rfl, rfl, fun h2 => absurd h h2⟩
  · exact ⟨rfl, rfl, rfl, fun _ => rfl⟩

/-- What `handleMove` draws and passes to `movePawn` when there is a game and the
pawn index is valid. -/
theorem handleMove_steps (s : Session) (g : Game) (parsed : Option Int) (i : Fin 4)
    (hg : s.game = some g) (hi : validPawnIndex parsed = some i) :
    (∃ report, (handleMove s parsed).2 = some report ∧
      report.steps = LudoGame.rollDice (s.random s.drawn)) ∧
    (handleMove s parsed).1.drawn = s.drawn + 1 ∧
    (handleMove s parsed).1.random = s.random := by
  unfold handleMove
  simp only [hg, hi]
  split
  · exact ⟨⟨_, rfl, rfl⟩, rfl, rfl⟩
  · split <;> exact ⟨⟨_, rfl, rfl⟩, rfl, rfl⟩

theorem validPawnIndex_cast (i : Fin 4) : validPawnIndex (some (i.val : Int)) = some i := by
  have h : (0 : Int) ≤ (i.val : Int) ∧ (i.val : Int) ≤ 3 := by
    have := i.isLt
    omega
  simp only [validPawnIndex, dif_pos h]
  congr 1

end LudoCommand

/-- A base pawn moved by anything but 6 stays where it is. -/
theorem movePawn_base_not_six (g : Game) (p : Player) (i : Fin 4) (steps : Int)
    (hbase : g.pawns p i = .num (-1)) (hsteps : steps ≠ 6) :
    LudoGame.movePawn g p i steps = .done g := by
  unfold LudoGame.movePawn
  simp [hbase, hsteps]

namespace LudoCommand

/-- The session `handleMove` leaves when `movePawn` returns and the game is not over. -/
theorem handleMove_of_done (s : Session) (g g1 : Game) (parsed : Option Int) (i : Fin 4)
    (hg : s.game = some g) (hi : validPawnIndex parsed = some i)
    (hmove : LudoGame.movePawn g (playerAt g.currentPlayer) i
      (LudoGame.rollDice (s.random s.drawn)) = .done g1)
    (hover : LudoGame.isGameOver g1 = none) :
    handleMove s parsed =
      ({ s with drawn := s.drawn + 1, game := some (LudoGame.nextTurn g1) },
        some { steps := LudoGame.rollDice (s.random s.drawn), raised := false, winner := none }) := by
  unfold handleMove
  simp only [hg, hi, hmove, hover]

end LudoCommand

/-- C8, as stated, fails: in a fresh game red pawn 0 is at Base, the move command
for pawn 0 draws the roll 1, which is not 6, and afterwards the current seat
index is 1 and no longer 0. -/
theorem rejected_move_passes_turn :
    freshSession.game = some (newGame none) ∧
    (newGame none).pawns (playerAt (newGame none).currentPlayer) 0 = .num (-1) ∧
    LudoGame.rollDice (freshSession.random freshSession.drawn) = 1 ∧
    (0 : Fin 4) ∉ LudoCommand.possibleMoves (newGame none) (playerAt (newGame none).currentPlayer) 1 ∧
    (newGame none).currentPlayer = 0 ∧
    (LudoCommand.handleMove freshSession (some 0)).1.game.map Game.currentPlayer = some 1 := by
  have hroll : LudoGame.rollDice (freshSession.random freshSession.drawn) = 1 :=
    rollDice_zero
  have hstep := LudoCommand.handleMove_of_done freshSession (newGame none) (newGame none) (some 0) 0
    rfl (by decide) (by rw [hroll]; exact movePawn_base_not_six _ _ _ _ rfl (by decide))
    (by decide)
  refine ⟨rfl, rfl, hroll, by decide, rfl, ?_⟩
  rw [hstep]
  decide

/-- C8, amended: in a session whose game is not over, when the chosen pawn (index
0..3) of the current seat is at Base and the roll `handleMove` draws is not 6, the
move command leaves every pawn position and the board unchanged, and the turn
passes: the current seat index becomes `(index + 1) mod 4`. -/
theorem handleMove_base_pawn_passes_turn (s : LudoCommand.Session) (g : Game) (i : Fin 4)
    (hg : s.game = some g)
    (hbase : g.pawns (playerAt g.currentPlayer) i = .num (-1))
    (hroll : LudoGame.rollDice (s.random s.drawn) ≠ 6)
    (hover : LudoGame.isGameOver g = none) :
    ∃ g1, (LudoCommand.handleMove s (some (i.val : Int))).1.game = some g1 ∧
      g1.pawns = g.pawns ∧ g1.board = g.board ∧
      g1.currentPlayer.val = (g.currentPlayer.val + 1) % 4 ∧
      g1.currentPlayer ≠ g.currentPlayer := by
  have hstep := LudoCommand.handleMove_of_done s g g (some (i.val : Int)) i hg
    (LudoCommand.validPawnIndex_cast i)
    (movePawn_base_not_six g (playerAt g.currentPlayer) i _ hbase hroll) hover
  refine ⟨LudoGame.nextTurn g, by rw [hstep], rfl, rfl, rfl, ?_⟩
  intro h
  have h2 : (g.currentPlayer.val + 1) % 4 = g.currentPlayer.val := congrArg Fin.val h
  have := g.currentPlayer.isLt
  omega

/-- The amended C8 on a fresh game: pawn 0 of red, roll 1. -/
theorem handleMove_base_pawn_passes_turn_witness :
    ∃ g1, (LudoCommand.handleMove freshSession (some ((0 : Fin 4).val : Int))).1.game = some g1 ∧
      g1.pawns = (newGame none).pawns ∧ g1.board = (newGame none).board ∧
      g1.currentPlayer.val = ((newGame none).currentPlayer.val + 1) % 4 ∧
      g1.currentPlayer ≠ (newGame none).currentPlayer :=
  handleMove_base_pawn_passes_turn freshSession (newGame none) 0 rfl rfl
    (by
      show LudoGame.rollDice 0 ≠ 6
      rw [rollDice_zero]
      decide)
    (by decide)

/-! ## The dice -/

/-- C9 fails on the code: the roll command draws 6 and lists the four base pawns;
the move command that follows draws again, gets 1, and passes 1 to `movePawn`;
the random source has then been read twice. -/
theorem move_uses_second_roll :
    (LudoCommand.handleRoll sixThenOne).2 = some { roll := 6, possibleMoves := [0, 1, 2, 3] } ∧
    (LudoCommand.handleMove (LudoCommand.handleRoll sixThenOne).1 (some 0)).2 =
      some { steps := 1, raised := false, winner := none } ∧
    (LudoCommand.handleMove (LudoCommand.handleRoll sixThenOne).1 (some 0)).1.drawn = 2 := by
  have hroll0 : LudoGame.rollDice (sixThenOne.random 0) = 6 := rollDice_seven_eighths
  have hroll1 : LudoGame.rollDice (sixThenOne.random 1) = 1 := rollDice_zero
  have hr : LudoCommand.handleRoll sixThenOne =
      ({ sixThenOne with drawn := 1 }, some { roll := 6, possibleMoves := [0, 1, 2, 3] }) := by
    unfold LudoCommand.handleRoll
    simp only [show sixThenOne.game = some (newGame none) from rfl,
      show sixThenOne.drawn = 0 from rfl, hroll0]
    rfl
  have hm := LudoCommand.handleMove_of_done { sixThenOne with drawn := 1 } (newGame none)
    (newGame none) (some 0) 0 rfl (by decide)
    (by
      show LudoGame.movePawn (newGame none) (playerAt (newGame none).currentPlayer) 0
        (LudoGame.rollDice (sixThenOne.random 1)) = .done (newGame none)
      rw [hroll1]
      exact movePawn_base_not_six _ _ _ _ rfl (by decide))
    (by decide)
  rw [hr, hm]
  exact ⟨rfl, by
    show some (LudoCommand.MoveReport.mk (LudoGame.rollDice (sixThenOne.random 1)) false none) = _
    rw [hroll1], rfl⟩

/-- C10, as stated, fails: `belowFiveSixths` is a binary64 value of `[0, 1)`, the
one next below 5/6; the product with 6 lies halfway between two binary64 values
and rounds up to 5, so `rollDice` returns 6, while `⌊6 r⌋ + 1` is 5. -/
theorem rollDice_above_exact_floor :
    0 ≤ belowFiveSixths ∧ belowFiveSixths < 1 ∧
    roundBinary64 belowFiveSixths = belowFiveSixths ∧
    LudoGame.rollDice belowFiveSixths = 6 ∧ ⌊6 * belowFiveSixths⌋ + 1 = 5 := by
  have hbin : roundBinary64 belowFiveSixths = belowFiveSixths :=
    roundBinary64_of_grid _ (-1) (2 * 3752999689475413) (by norm_num)
      (by norm_num [belowFiveSixths]) (by norm_num [belowFiveSixths])
      (by norm_num [belowFiveSixths])
  have he : ulpExponent (belowFiveSixths * 6) = -50 := by
    have := ulpExponent_eq (belowFiveSixths * 6) 2 (by norm_num)
      (by norm_num [belowFiveSixths]) (by norm_num [belowFiveSixths])
    rw [this]
    norm_num
  have hy : belowFiveSixths * 6 / (2 : ℚ) ^ (-50 : Int) = 11258999068426239 / 2 := by
    norm_num [belowFiveSixths]
  have hfloor : ⌊(11258999068426239 / 2 : ℚ)⌋ = 5629499534213119 := by
    rw [Int.floor_eq_iff]
    norm_num
  have hfract : Int.fract (11258999068426239 / 2 : ℚ) = 1 / 2 := by
    rw [Int.fract, hfloor]
    norm_num
  have hround : roundTiesEven (11258999068426239 / 2 : ℚ) = 5629499534213120 := by
    unfold roundTiesEven
    rw [hfract, hfloor]
    norm_num
  have hprod : roundBinary64 (belowFiveSixths * 6) = 5 := by
    unfold roundBinary64
    rw [he, hy, hround]
    norm_num
  refine ⟨by norm_num [belowFiveSixths], by norm_num [belowFiveSixths], hbin, ?_, ?_⟩
  · unfold LudoGame.rollDice
    rw [hprod]
    norm_num
  · have : ⌊6 * belowFiveSixths⌋ = 4 := by
      rw [Int.floor_eq_iff]
      norm_num [belowFiveSixths]
    rw [this]
    norm_num

/-- C10, amended: for every binary64 value `r` with `0 ≤ r < 1`, `rollDice`
returns the floor of the binary64 product `r * 6` plus 1; that value is
`⌊6 r⌋ + 1` or `⌊6 r⌋ + 2`, and it is an integer in 1..6; every value of 1..6 is
returned for some binary64 `r` with `0 ≤ r < 1`. -/
theorem rollDice_binary64_range :
    (∀ r : ℚ, 0 ≤ r → r < 1 → roundBinary64 r = r →
      (⌊6 * r⌋ + 1 ≤ LudoGame.rollDice r ∧ LudoGame.rollDice r ≤ ⌊6 * r⌋ + 2) ∧
      1 ≤ LudoGame.rollDice r ∧ LudoGame.rollDice r ≤ 6) ∧
    (∀ k : Int, 1 ≤ k → k ≤ 6 →
      ∃ r : ℚ, 0 ≤ r ∧ r < 1 ∧ roundBinary64 r = r ∧ LudoGame.rollDice r = k) := by
  constructor
  · intro r h0 h1 hr
    have hsand := floor_roundBinary64 (r * 6) (by positivity) (by linarith)
    have hb := rollDice_bounds r h0 h1 hr
    rw [mul_comm 6 r]
    unfold LudoGame.rollDice at hb ⊢
    omega
  · intro k hk1 hk6
    have h1 : k = 1 ∨ k = 2 ∨ k = 3 ∨ k = 4 ∨ k = 5 ∨ k = 6 := by omega
    rcases h1 with rfl | rfl | rfl | rfl | rfl | rfl
    · exact ⟨0, le_refl _, by norm_num, roundBinary64_zero, rollDice_zero⟩
    · refine ⟨1 / 4, by norm_num, by norm_num,
        roundBinary64_of_grid _ (-2) (2 ^ 52) (by norm_num) (by norm_num) (by norm_num)
          (by norm_num), ?_⟩
      exact rollDice_of_exact _ 1
        (roundBinary64_of_grid _ 0 (3 * 2 ^ 51) (by norm_num) (by norm_num) (by norm_num)
          (by norm_num))
        (by rw [Int.floor_eq_iff]; norm_num)
    · exact ⟨3 / 8, by norm_num, by norm_num,
        roundBinary64_of_grid _ (-2) (3 * 2 ^ 51) (by norm_num) (by norm_num) (by norm_num)
          (by norm_num), rollDice_three_eighths⟩
    · refine ⟨1 / 2, by norm_num, by norm_num,
        roundBinary64_of_grid _ (-1) (2 ^ 52) (by norm_num) (by norm_num) (by norm_num)
          (by norm_num), ?_⟩
      exact rollDice_of_exact _ 3
        (roundBinary64_of_grid _ 1 (3 * 2 ^ 51) (by norm_num) (by norm_num) (by norm_num)
          (by norm_num))
        (by rw [Int.floor_eq_iff]; norm_num)
    · refine ⟨3 / 4, by norm_num, by norm_num,
        roundBinary64_of_grid _ (-1) (3 * 2 ^ 51) (by norm_num) (by norm_num) (by norm_num)
          (by norm_num), ?_⟩
      exact rollDice_of_exact _ 4
        (roundBinary64_of_grid _ 2 (9 * 2 ^ 49) (by norm_num) (by norm_num) (by norm_num)
          (by norm_num))
        (by rw [Int.floor_eq_iff]; norm_num)
    · exact ⟨7 / 8, by norm_num, by norm_num,
        roundBinary64_of_grid _ (-1) (7 * 2 ^ 50) (by norm_num) (by norm_num) (by norm_num)
          (by norm_num), rollDice_seven_eighths⟩

/-- The amended C10 at `belowFiveSixths`, where the roll is `⌊6 r⌋ + 2`, and at
the binary64 value `3/8`. -/
theorem rollDice_binary64_range_witness :
    ((⌊6 * belowFiveSixths⌋ + 1 ≤ LudoGame.rollDice belowFiveSixths ∧
        LudoGame.rollDice belowFiveSixths ≤ ⌊6 * belowFiveSixths⌋ + 2) ∧
      1 ≤ LudoGame.rollDice belowFiveSixths ∧ LudoGame.rollDice belowFiveSixths ≤ 6) ∧
    ((⌊6 * (3 / 8 : ℚ)⌋ + 1 ≤ LudoGame.rollDice (3 / 8) ∧
        LudoGame.rollDice (3 / 8) ≤ ⌊6 * (3 / 8 : ℚ)⌋ + 2) ∧
      1 ≤ LudoGame.rollDice (3 / 8) ∧ LudoGame.rollDice (3 / 8) ≤ 6) :=
  ⟨rollDice_binary64_range.1 belowFiveSixths (by norm_num [belowFiveSixths])
      (by norm_num [belowFiveSixths])
      (roundBinary64_of_grid _ (-1) (2 * 3752999689475413) (by norm_num)
        (by norm_num [belowFiveSixths]) (by norm_num [belowFiveSixths])
        (by norm_num [belowFiveSixths])),
    rollDice_binary64_range.1 (3 / 8) (by norm_num) (by norm_num)
      (roundBinary64_of_grid _ (-2) (3 * 2 ^ 51) (by norm_num) (by norm_num) (by norm_num)
        (by norm_num))⟩

/-! ## The move the evaluator selects -/

/-- The head of the stably sorted list has the highest score and, when the list
is in ascending pawn-index order, the lowest index among the entries of that score. -/
theorem sortByScore_head (l : List LudoAI.ScoredMove) (hl : l ≠ [])
    (hidx : l.Pairwise fun a b => a.move.index < b.move.index) :
    ∃ h, (LudoAI.sortByScore l).head? = some h ∧ h ∈ l ∧ (∀ x ∈ l, x.score ≤ h.score) ∧
      ∀ x ∈ l, x.score = h.score → h.move.index ≤ x.move.index := by
  induction l with
  | nil => exact absurd rfl hl
  | cons a t ih =>
    obtain ⟨hat, ht⟩ := List.pairwise_cons.1 hidx
    by_cases htn : t = []
    · subst htn
      refine ⟨a, rfl, List.mem_singleton.2 rfl, fun x hx => ?_, fun x hx _ => ?_⟩
      · rw [List.mem_singleton.1 hx]
      · rw [List.mem_singleton.1 hx]
    · obtain ⟨b, hb, hmem, hmax, hfirst⟩ := ih htn ht
      unfold LudoAI.sortByScore at hb ⊢
      rw [List.insertionSort]
      cases hs : List.insertionSort (fun a b : LudoAI.ScoredMove => b.score ≤ a.score) t with
      | nil =>
        rw [hs] at hb
        cases hb
      | cons c rest =>
        rw [hs] at hb
        have hcb : c = b := by simpa using hb
        subst hcb
        simp only [List.orderedInsert]
        split_ifs with hca
        · refine ⟨a, rfl, List.mem_cons_self _ _, fun x hx => ?_, fun x hx _ => ?_⟩
          · rcases List.mem_cons.1 hx with hx | hx
            · rw [hx]
            · exact le_trans (hmax x hx) hca
          · rcases List.mem_cons.1 hx with hx | hx
            · rw [hx]
            · exact le_of_lt (hat x hx)
        · refine ⟨c, rfl, List.mem_cons_of_mem _ hmem, fun x hx => ?_, fun x hx hxs => ?_⟩
          · rcases List.mem_cons.1 hx with hx | hx
            · rw [hx]
              exact le_of_lt (not_le.1 hca)
            · exact hmax x hx
          · rcases List.mem_cons.1 hx with hx | hx
            · rw [hx] at hxs
              exact absurd (le_of_eq hxs.symm) hca
            · exact hfirst x hx hxs

/-- C11: for every game state, seat and roll, when the list of legal moves is
empty `makeMove` returns no move; when it is not, the move returned is one of the
list, no move of the list has a higher `evaluateMove` score, and every move of
the list with the same score has a pawn index at least as large.  Two calls that
roll the same value on the same state return the same move. -/
theorem makeMove_selects_best (g : Game) (p : Player) (r : ℚ) :
    (LudoAI.getPossibleMoves g p (LudoGame.rollDice r) = [] → LudoAI.makeMove g p r = none) ∧
    (LudoAI.getPossibleMoves g p (LudoGame.rollDice r) ≠ [] →
      ∃ m, LudoAI.makeMove g p r = some m ∧
        m ∈ LudoAI.getPossibleMoves g p (LudoGame.rollDice r) ∧
        (∀ m1 ∈ LudoAI.getPossibleMoves g p (LudoGame.rollDice r),
          LudoAI.evaluateMove g p m1 (LudoGame.rollDice r) ≤
            LudoAI.evaluateMove g p m (LudoGame.rollDice r)) ∧
        (∀ m1 ∈ LudoAI.getPossibleMoves g p (LudoGame.rollDice r),
          LudoAI.evaluateMove g p m1 (LudoGame.rollDice r) =
            LudoAI.evaluateMove g p m (LudoGame.rollDice r) → m.index ≤ m1.index)) ∧
    (∀ r1 : ℚ, LudoGame.rollDice r1 = LudoGame.rollDice r →
      LudoAI.makeMove g p r1 = LudoAI.makeMove g p r) := by
  refine ⟨fun hnil => ?_, fun hne => ?_, fun r1 hr1 => ?_⟩
  · unfold LudoAI.makeMove
    simp [hnil]
  · have hlen : (LudoAI.getPossibleMoves g p (LudoGame.rollDice r)).length ≠ 0 := by
      intro h
      exact hne (List.length_eq_zero.1 h)
    have hsorted := getPossibleMoves_sorted g p (LudoGame.rollDice r)
    rw [List.pairwise_map] at hsorted
    obtain ⟨h, hh, hmem, hmax, hfirst⟩ := sortByScore_head
      ((LudoAI.getPossibleMoves g p (LudoGame.rollDice r)).map fun move =>
        ({ move := move, score := LudoAI.evaluateMove g p move (LudoGame.rollDice r) } :
          LudoAI.ScoredMove))
      (by simpa using hne)
      (by rw [List.pairwise_map]; exact hsorted)
    obtain ⟨m, hm, rfl⟩ := List.mem_map.1 hmem
    refine ⟨m, ?_, hm, fun m1 hm1 => ?_, fun m1 hm1 heq => ?_⟩
    · unfold LudoAI.makeMove
      simp only [if_neg hlen, hh, Option.map_some']
    · exact hmax _ (List.mem_map.2 ⟨m1, hm1, rfl⟩)
    · exact hfirst _ (List.mem_map.2 ⟨m1, hm1, rfl⟩) heq
  · unfold LudoAI.makeMove
    simp only [hr1]

/-- C11 at a concrete state: red has pawn 0 on cell 10 and pawns 1 and 3 on cell
5, green stands on cell 8, and red rolls 3.  The legal moves are those of pawns
0, 1 and 3, with scores 0, 50 and 50; the properties C11 states single out the
move of pawn 1: pawn 0 scores less, and pawn 3 ties with a higher index. -/
theorem makeMove_selects_best_witness :
    LudoGame.rollDice (3 / 8) = 3 ∧
    LudoAI.getPossibleMoves redThreeOnTrack .red 3 =
      [{ index := 0, position := .num 10 }, { index := 1, position := .num 5 },
        { index := 3, position := .num 5 }] ∧
    LudoAI.evaluateMove redThreeOnTrack .red { index := 0, position := .num 10 } 3 = 0 ∧
    LudoAI.evaluateMove redThreeOnTrack .red { index := 1, position := .num 5 } 3 = 50 ∧
    LudoAI.evaluateMove redThreeOnTrack .red { index := 3, position := .num 5 } 3 = 50 ∧
    LudoAI.makeMove redThreeOnTrack .red (3 / 8) = some { index := 1, position := .num 5 } := by
  have hroll : LudoGame.rollDice (3 / 8) = 3 := rollDice_three_eighths
  have hlist : LudoAI.getPossibleMoves redThreeOnTrack .red 3 =
      [{ index := 0, position := .num 10 }, { index := 1, position := .num 5 },
        { index := 3, position := .num 5 }] := by decide
  have e0 : LudoAI.evaluateMove redThreeOnTrack .red { index := 0, position := .num 10 } 3 = 0 := by
    decide
  have e1 : LudoAI.evaluateMove redThreeOnTrack .red { index := 1, position := .num 5 } 3 = 50 := by
    decide
  have e3 : LudoAI.evaluateMove redThreeOnTrack .red { index := 3, position := .num 5 } 3 = 50 := by
    decide
  obtain ⟨m, hm, hmem, hmax, htie⟩ :=
    (makeMove_selects_best redThreeOnTrack .red (3 / 8)).2.1 (by rw [hroll, hlist]; simp)
  rw [hroll, hlist] at hmem hmax htie
  refine ⟨hroll, hlist, e0, e1, e3, ?_⟩
  rw [hm]
  simp only [List.mem_cons, List.mem_singleton, List.not_mem_nil, or_false] at hmem
  rcases hmem with rfl | rfl | rfl
  · have h := hmax { index := 1, position := .num 5 } (by simp)
    rw [e0, e1] at h
    omega
  · rfl
  · have h := htie { index := 1, position := .num 5 } (by simp) (by rw [e1, e3])
    exact absurd h (by decide)

/-! ## The evaluator against the engine -/

/-- C12 fails on the code: in a fresh game every pawn of green, yellow and blue
is at Base (`-1`), none is on the track, and yet `isInDangerZone` is true for red
at cells 1 and 2 (from `(-1 + 2) % 52` and `(-1 + 3) % 52`), so `evaluateMove`
gives red's move from cell 0 by 1 step the score `-25`. -/
theorem danger_zone_next_to_base_pawns :
    (newGame none).pawns = (fun _ _ => Pos.num (-1)) ∧
    LudoAI.isInDangerZone (newGame none) .red (.num 1) = true ∧
    LudoAI.isInDangerZone (newGame none) .red (.num 2) = true ∧
    (∀ j, redOnStart.pawns .green j = .num (-1) ∧ redOnStart.pawns .yellow j = .num (-1) ∧
      redOnStart.pawns .blue j = .num (-1)) ∧
    advance (.num 0) 1 = .num 1 ∧
    LudoAI.isInDangerZone redOnStart .red (.num 1) = true ∧
    LudoAI.evaluateMove redOnStart .red { index := 0, position := .num 0 } 1 = -25 := by
  refine ⟨rfl, by decide, by decide, fun j => ⟨rfl, rfl, rfl⟩, by decide, by decide, by decide⟩

/-- C13 fails on the code: on the default board red pawn 0 stands on cell 5 and
green pawn 1 on the safe cell 8; with a roll of 3 the move of pawn 0 is legal,
`canCapture(8)` is true and `evaluateMove` scores the move 50, yet
`movePawn(red, 0, 3)` returns with every pawn of the other seats where it was. -/
theorem capture_bonus_without_capture :
    redBeforeSafeCell.board = createDefaultBoard ∧
    ({ index := 0, position := .num 5 } : LudoAI.Move) ∈
      LudoAI.getPossibleMoves redBeforeSafeCell .red 3 ∧
    advance (.num 5) 3 = .num 8 ∧
    LudoAI.canCapture redBeforeSafeCell .red (.num 8) = true ∧
    LudoAI.evaluateMove redBeforeSafeCell .red { index := 0, position := .num 5 } 3 = 50 ∧
    (LudoGame.movePawn redBeforeSafeCell .red 0 3).returned = true ∧
    (LudoGame.movePawn redBeforeSafeCell .red 0 3).game.pawns .red 0 = .num 8 ∧
    (∀ q j, q ≠ Player.red →
      (LudoGame.movePawn redBeforeSafeCell .red 0 3).game.pawns q j =
        redBeforeSafeCell.pawns q j) := by
  refine ⟨rfl, by decide, by decide, by decide, by decide, by decide, by decide, ?_⟩
  intro q j hq
  cases q
  · exact absurd rfl hq
  all_goals fin_cases j <;> decide

/-! ## Player statistics -/

/-- C14 fails on the code: asking for the statistics of an identity without an
entry creates a fresh `PlayerStats` (zero games played) and the message shows the
text `NaN` for the win rate and for the average moves, not a "no data" value. -/
theorem fresh_stats_show_nan :
    (LudoCommand.sendPlayerStats noStats (some "alice")).2 =
      some { playerId := "alice", gamesPlayed := 0, gamesWon := 0, winRate := .text "NaN",
             averageMoves := .text "NaN", pawnsLost := 0, pawnsFinished := 0 } ∧
    (PlayerStats.new "alice").gamesPlayed = 0 ∧
    (PlayerStats.new "alice").getStatsMessage.winRate ≠ .text "no data" ∧
    (PlayerStats.new "alice").getStatsMessage.averageMoves ≠ .text "no data" := by
  decide

/-- The counters after a run of `updateStats` calls, from any starting object. -/
theorem foldl_updateStats (rs : List GameResult) :
    ∀ st : PlayerStats,
      (rs.foldl PlayerStats.updateStats st).playerId = st.playerId ∧
      (rs.foldl PlayerStats.updateStats st).gamesPlayed = st.gamesPlayed + (rs.length : Int) ∧
      (rs.foldl PlayerStats.updateStats st).gamesWon =
        st.gamesWon + ((rs.countP fun r => decide (r.winner = st.playerId) : Nat) : Int) ∧
      (rs.foldl PlayerStats.updateStats st).totalMoves =
        st.totalMoves + (rs.map fun r => r.moves st.playerId).sum ∧
      (rs.foldl PlayerStats.updateStats st).pawnsLost =
        st.pawnsLost + (rs.map fun r => r.pawnsLost st.playerId).sum ∧
      (rs.foldl PlayerStats.updateStats st).pawnsFinished =
        st.pawnsFinished + (rs.map fun r => r.pawnsFinished st.playerId).sum := by
  induction rs with
  | nil => intro st; simp
  | cons r rs ih =>
    intro st
    obtain ⟨h1, h2, h3, h4, h5, h6⟩ := ih (PlayerStats.updateStats st r)
    have hid : (PlayerStats.updateStats st r).playerId = st.playerId := rfl
    rw [hid] at h1 h3 h4 h5 h6
    simp only [List.foldl_cons, List.length_cons, List.map_cons, List.sum_cons, List.countP_cons]
    refine ⟨h1, ?_, ?_, ?_, ?_, ?_⟩
    · rw [h2]
      simp only [PlayerStats.updateStats]
      push_cast
      ring
    · rw [h3]
      simp only [PlayerStats.updateStats]
      by_cases hw : r.winner = st.playerId
      · simp only [hw, if_true, decide_True]
        push_cast
        ring
      · simp only [hw, if_false, decide_False]
        push_cast
        ring
    · rw [h4]
      simp only [PlayerStats.updateStats]
      ring
    · rw [h5]
      simp only [PlayerStats.updateStats]
      ring
    · rw [h6]
      simp only [PlayerStats.updateStats]
      ring

/-- C15: for every identity `p` and every sequence of game results, starting from
a fresh `PlayerStats(p)` and calling `updateStats` once per result gives
`gamesPlayed` = the number of results, `gamesWon` = the number of results won by
`p` (at most `gamesPlayed`; for a non-empty sequence the quotient
`gamesWon / gamesPlayed` is the finite value count / number), and `totalMoves`,
`pawnsLost`, `pawnsFinished` = the sums of the entries of `p`; one call never
lowers `gamesPlayed` or `gamesWon`, and lowers none of the three totals when the
entry added is non-negative. -/
theorem updateStats_totals (p : String) (rs : List GameResult) :
    (rs.foldl PlayerStats.updateStats (PlayerStats.new p)).gamesPlayed = (rs.length : Int) ∧
    (rs.foldl PlayerStats.updateStats (PlayerStats.new p)).gamesWon =
      ((rs.countP fun r => decide (r.winner = p) : Nat) : Int) ∧
    (rs.foldl PlayerStats.updateStats (PlayerStats.new p)).gamesWon ≤
      (rs.foldl PlayerStats.updateStats (PlayerStats.new p)).gamesPlayed ∧
    (0 < rs.length →
      jsDiv (rs.foldl PlayerStats.updateStats (PlayerStats.new p)).gamesWon
          (rs.foldl PlayerStats.updateStats (PlayerStats.new p)).gamesPlayed =
        .finite (((rs.countP fun r => decide (r.winner = p) : Nat) : ℚ) / (rs.length : ℚ))) ∧
    (rs.foldl PlayerStats.updateStats (PlayerStats.new p)).totalMoves =
      (rs.map fun r => r.moves p).sum ∧
    (rs.foldl PlayerStats.updateStats (PlayerStats.new p)).pawnsLost =
      (rs.map fun r => r.pawnsLost p).sum ∧
    (rs.foldl PlayerStats.updateStats (PlayerStats.new p)).pawnsFinished =
      (rs.map fun r => r.pawnsFinished p).sum ∧
    (∀ (st : PlayerStats) (r : GameResult),
      st.gamesPlayed ≤ (st.updateStats r).gamesPlayed ∧
      st.gamesWon ≤ (st.updateStats r).gamesWon ∧
      (0 ≤ r.moves st.playerId → st.totalMoves ≤ (st.updateStats r).totalMoves) ∧
      (0 ≤ r.pawnsLost st.playerId → st.pawnsLost ≤ (st.updateStats r).pawnsLost) ∧
      (0 ≤ r.pawnsFinished st.playerId → st.pawnsFinished ≤ (st.updateStats r).pawnsFinished)) := by
  obtain ⟨_, h2, h3, h4, h5, h6⟩ := foldl_updateStats rs (PlayerStats.new p)
  have hp : (PlayerStats.new p).playerId = p := rfl
  have z1 : (PlayerStats.new p).gamesPlayed = 0 := rfl
  have z2 : (PlayerStats.new p).gamesWon = 0 := rfl
  have z3 : (PlayerStats.new p).totalMoves = 0 := rfl
  have z4 : (PlayerStats.new p).pawnsLost = 0 := rfl
  have z5 : (PlayerStats.new p).pawnsFinished = 0 := rfl
  rw [hp] at h3 h4 h5 h6
  rw [z1, zero_add] at h2
  rw [z2, zero_add] at h3
  rw [z3, zero_add] at h4
  rw [z4, zero_add] at h5
  rw [z5, zero_add] at h6
  have hle : (rs.countP fun r => decide (r.winner = p)) ≤ rs.length := List.countP_le_length _
  refine ⟨h2, h3, ?_, fun hpos => ?_, h4, h5, h6, fun st r => ?_⟩
  · rw [h2, h3]
    exact_mod_cast hle
  · rw [h2, h3]
    have hne : ((rs.length : Nat) : Int) ≠ 0 := by
      have : (0 : Int) < (rs.length : Int) := by exact_mod_cast hpos
      omega
    simp only [jsDiv, if_pos hne]
    push_cast
    rfl
  · simp only [PlayerStats.updateStats]
    refine ⟨by omega, ?_, fun h => by omega, fun h => by omega, fun h => by omega⟩
    split_ifs <;> omega

/-- C15 on two results for `alice`, one of them won. -/
theorem updateStats_totals_witness :
    jsDiv (twoResults.foldl PlayerStats.updateStats (PlayerStats.new "alice")).gamesWon
        (twoResults.foldl PlayerStats.updateStats (PlayerStats.new "alice")).gamesPlayed =
      .finite (((twoResults.countP fun r => decide (r.winner = "alice") : Nat) : ℚ) /
        (twoResults.length : ℚ)) :=
  (updateStats_totals "alice" twoResults).2.2.2.1 (by decide)

/-! ## Red never reaches home -/

/-- The remainder `(position + steps) % 52` is never the string `'home'`. -/
theorem advance_ne_home (position : Pos) (steps : Int) : advance position steps ≠ .home := by
  cases position <;> simp [advance]

/-- The remainder `(position + steps) % 52` is below 52, so it never lies in
red's home stretch 52..56. -/
theorem advance_not_in_red_stretch (position : Pos) (steps : Int) :
    LudoGame.isInHomeStretch .red (advance position steps) = false := by
  cases position with
  | num n =>
    have hlt : jsMod (n + steps) 52 < 52 := Int.tmod_lt_of_pos _ (by decide)
    have h0 : homeStretch .red 0 = 52 := rfl
    simp only [advance, LudoGame.isInHomeStretch, geNum, h0, Bool.and_eq_false_iff,
      decide_eq_false_iff_not]
    left
    omega
  | home => rfl
  | nan => rfl

/-- No call of `movePawn`, by any seat, makes a red pawn `'home'`. -/
theorem movePawn_keeps_red_off_home (g : Game) (p : Player) (i : Fin 4) (steps : Int)
    (hred : ∀ j, g.pawns .red j ≠ .home) :
    ∀ j, (LudoGame.movePawn g p i steps).game.pawns .red j ≠ .home := by
  intro j
  unfold LudoGame.movePawn
  simp only
  split_ifs with h1 h2 h3 h4
  · simp only [Outcome.game, setPosition_pawns]
    split_ifs
    · simp
    · exact hred j
  · have hp : p ≠ .red := by
      intro hp
      rw [hp, advance_not_in_red_stretch] at h3
      cases h3
    simp only [Outcome.game]
    rw [setPosition_pawns_seat _ _ _ _ _ _ (Ne.symm hp)]
    exact hred j
  · simp only [Outcome.game, setPosition_pawns]
    split_ifs
    · exact advance_ne_home _ _
    · exact hred j
  · have hfr := (LudoGame.checkCaptureFrom_frame p (advance (g.pawns p i) steps) players
      (g.setPosition p i (advance (g.pawns p i) steps))).2.2 .red j
    unfold LudoGame.checkCapture
    rcases hfr with hfr | hfr
    · rw [hfr, setPosition_pawns]
      split_ifs
      · exact advance_ne_home _ _
      · exact hred j
    · rw [hfr.2]
      simp
  · exact hred j

/-- The seat `isGameOver` returns has all four pawns `'home'`. -/
theorem isGameOver_some_all_home (g : Game) (s : Player) (h : LudoGame.isGameOver g = some s) :
    ∀ i, g.pawns s i = .home := by
  unfold LudoGame.isGameOver at h
  have h2 := List.find?_some h
  exact (all_home_iff g s).1 h2

/-- C16: in every game state in which each red pawn is at Base or on a cell
0..51, for every pawn index and steps in 1..6, the landing cell
`(position + steps) mod 52` of a red pawn on the track is at most 51 and outside
red's home stretch 52..56, and `movePawn(red, i, steps)` leaves no red pawn
Finished; hence in every state reachable from the initial state by `movePawn`
and `nextTurn` no red pawn is Finished and `isGameOver` does not return red. -/
theorem red_never_finishes :
    (∀ (g : Game) (i : Fin 4) (steps : Int),
      (∀ j, g.pawns .red j = .num (-1) ∨ ∃ c, 0 ≤ c ∧ c ≤ 51 ∧ g.pawns .red j = .num c) →
      1 ≤ steps → steps ≤ 6 →
      (∀ c, g.pawns .red i = .num c → 0 ≤ c →
        advance (g.pawns .red i) steps = .num ((c + steps) % 52) ∧ (c + steps) % 52 ≤ 51 ∧
        LudoGame.isInHomeStretch .red (.num ((c + steps) % 52)) = false) ∧
      ∀ j, (LudoGame.movePawn g .red i steps).game.pawns .red j ≠ .home) ∧
    (∀ g, Reachable g → (∀ j, g.pawns .red j ≠ .home) ∧ LudoGame.isGameOver g ≠ some .red) := by
  have hreach : ∀ g, Reachable g → ∀ j, g.pawns .red j ≠ .home := by
    intro g hg
    induction hg with
    | start customBoard => intro j; simp [newGame]
    | move g p i steps _ _ _ ih => exact movePawn_keeps_red_off_home g p i steps ih
    | turn g _ ih => exact ih
  refine ⟨fun g i steps hwf hs1 hs6 => ⟨fun c hc hc0 => ?_, ?_⟩, fun g hg => ⟨hreach g hg, ?_⟩⟩
  · have hadv : advance (g.pawns .red i) steps = .num ((c + steps) % 52) := by
      rw [hc]
      simp [advance, jsMod_of_nonneg (c + steps) (by omega)]
    refine ⟨hadv, by omega, ?_⟩
    rw [← hadv]
    exact advance_not_in_red_stretch _ _
  · apply movePawn_keeps_red_off_home
    intro j
    rcases hwf j with h | ⟨c, _, _, h⟩ <;> rw [h] <;> simp
  · intro hover
    exact hreach g hg 0 (isGameOver_some_all_home g .red hover 0)

/-- C16 on the state with red pawn 0 on cell 0, moved by 6, and on the state
reached from a fresh game by that pawn leaving its base. -/
theorem red_never_finishes_witness :
    (∀ j, (LudoGame.movePawn redOnStart .red 0 6).game.pawns .red j ≠ .home) ∧
    (∀ j, (LudoGame.movePawn (newGame none) .red 0 6).game.pawns .red j ≠ .home) ∧
    LudoGame.isGameOver (LudoGame.movePawn (newGame none) .red 0 6).game ≠ some .red :=
  ⟨(red_never_finishes.1 redOnStart 0 6 (by
      intro j
      fin_cases j
      · exact Or.inr ⟨0, by decide, by decide, rfl⟩
      all_goals exact Or.inl rfl) (by decide) (by decide)).2,
    (red_never_finishes.2 _ (Reachable.move _ .red 0 6 (Reachable.start none) (by decide)
      (by decide))).1,
    (red_never_finishes.2 _ (Reachable.move _ .red 0 6 (Reachable.start none) (by decide)
      (by decide))).2⟩

end Ludo
